import Mathlib

/-!
Verification of the schedule-to-calendar normalization engine of the
CanvasCrafter repository (files/backend/populate_weeks.py,
populate_weeks_utils.py, quiz_utils.py, checkout_utils.py,
build_htmls/build_hw.py), as a shallow embedding in Lean 4.

Python strings are modelled as Lean `String` (with `List Char` views for
parsing proofs); Python dicts as insertion-ordered association lists;
`datetime`/`pandas.Timestamp` values as a `Date` structure (year, month,
day) with the day-of-week computed by the Rata-Die day count; fallible
Python code (KeyError / ValueError) as `Except PyErr`.
-/

namespace CanvasCrafter

/-- Characters matched by the regex class `\s` (Python `re`). -/
def isSpaceChar (c : Char) : Bool :=
  c = ' ' || c = '\t' || c = '\n' || c = '\r' || c = '\x0b' || c = '\x0c'

/-- `str.strip()` on the model: drop `\s` characters from both ends. -/
def pyStrip (s : String) : String :=
  String.mk (((s.data.dropWhile isSpaceChar).reverse.dropWhile isSpaceChar).reverse)

/-- Value of a decimal digit character. -/
def digitVal (c : Char) : Nat := c.toNat - 48

/-- `int(s)` on a string of decimal digits: fold of the digit values. -/
def digitsToNat (l : List Char) : Nat :=
  l.foldl (fun a c => 10 * a + digitVal c) 0

/-- The decimal digit character for `n < 10` (explicit table so that all
character facts are provable by `decide`). -/
def digCh (n : Nat) : Char :=
  match n with
  | 0 => '0' | 1 => '1' | 2 => '2' | 3 => '3' | 4 => '4'
  | 5 => '5' | 6 => '6' | 7 => '7' | 8 => '8' | _ => '9'

/-- Decimal rendering of a natural number, fuel-based accumulator form so
that the kernel can evaluate it (models `str(n)` for a non-negative int;
any fuel above `n` computes the full rendering). -/
def natCharsCore : Nat → Nat → List Char → List Char
  | 0, _, acc => acc
  | fuel + 1, n, acc =>
    if n < 10 then digCh n :: acc
    else natCharsCore fuel (n / 10) (digCh (n % 10) :: acc)

/-- Decimal rendering of a natural number as a character list. -/
def natChars (n : Nat) : List Char := natCharsCore (n + 1) n []

/-- `str(n)` for a natural number. -/
def renderNat (n : Nat) : String := String.mk (natChars n)

/-- `str(w)` for an int week key (weeks can in principle be negative). -/
def renderInt (w : Int) : String :=
  if w < 0 then String.mk ('-' :: natChars w.natAbs) else renderNat w.natAbs

/-- Does `pat` occur at the head of `s`? (exact character match). -/
def headMatch : List Char → List Char → Bool
  | [], _ => true
  | _ :: _, [] => false
  | p :: ps, c :: cs => p = c && headMatch ps cs

/-- Python `pat in s` for strings: substring containment. -/
def containsSub : List Char → List Char → Bool
  | s, pat =>
    match s with
    | [] => headMatch pat []
    | _ :: cs => headMatch pat s || containsSub cs pat

/-- Python `sub in s` on `String`s. -/
def strContains (s sub : String) : Bool := containsSub s.data sub.data

/-- `s.upper()`. -/
def pyUpper (s : String) : String := String.mk (s.data.map Char.toUpper)

/-- `str.isdigit()` for the strings produced by `str(intValue)`:
non-empty and all decimal digits. -/
def isDigitStr (s : String) : Bool := !s.data.isEmpty && s.data.all Char.isDigit

/-- Match `pat` case-insensitively at the head of `s`, then `\s*`, then a
non-empty run of digits; return the captured digit run (the regex
`pat\s*(\d+)` anchored at the current position). -/
def matchPatAt : List Char → List Char → Option (List Char)
  | [], s =>
    let rest := s.dropWhile isSpaceChar
    let ds := rest.takeWhile Char.isDigit
    if ds.isEmpty then none else some ds
  | _ :: _, [] => none
  | p :: ps, c :: cs => if p.toLower = c.toLower then matchPatAt ps cs else none

/-- `re.search(pat + "\s*(\d+)", s, re.IGNORECASE)`: scan start positions
left to right and return the first captured digit run. -/
def reSearchDigits : List Char → List Char → Option (List Char)
  | pat, [] => matchPatAt pat []
  | pat, s@(_ :: cs) =>
    match matchPatAt pat s with
    | some ds => some ds
    | none => reSearchDigits pat cs

/-- `re.search` wrapper on `String`s; returns the captured digit group as a
string, as `match.group(1)` does. -/
def searchNum (pat s : String) : Option String :=
  (reSearchDigits pat.data s.data).map String.mk

/-- The first maximal run of digit characters in `s`
(what `re.search(r"(?:Module?\.?\s*)(\d+)", s)` captures: the optional
prefix group never changes which digits are captured). -/
def firstDigitRun : List Char → Option (List Char)
  | [] => none
  | c :: cs =>
    if c.isDigit then some ((c :: cs).takeWhile Char.isDigit)
    else firstDigitRun cs

/-- `extract_homework_number` (build_htmls/build_hw.py): patterns
`HW\s*(\d+)`, `Homework\s*(\d+)`, `Assignment\s*(\d+)` tried in order,
case-insensitively; `None` for empty text or no hit. -/
def extract_homework_number (assignment_text : String) : Option String :=
  if assignment_text = "" then none
  else
    match searchNum "HW" assignment_text with
    | some n => some n
    | none =>
      match searchNum "Homework" assignment_text with
      | some n => some n
      | none => searchNum "Assignment" assignment_text

/-- `extract_checkout_number` (checkout_utils.py): the three patterns
`CHECKOUT\s*(\d+)`, `Checkout\s*(\d+)`, `checkout\s*(\d+)` tried in order,
each with `re.IGNORECASE`; `None` for empty text or no hit. -/
def extract_checkout_number (topic : String) : Option String :=
  if topic = "" then none
  else
    match searchNum "CHECKOUT" topic with
    | some n => some n
    | none =>
      match searchNum "Checkout" topic with
      | some n => some n
      | none => searchNum "checkout" topic

/-- quiz_info dict built by `process_quiz_from_topic`. -/
structure QuizInfo where
  has_quiz : Bool
  quiz_number : String
  study_text : String
  sample_text : String
  sample_quiz_url : String
deriving Repr, DecidableEq

def emptyQuizInfo : QuizInfo :=
  { has_quiz := false, quiz_number := "", study_text := "",
    sample_text := "", sample_quiz_url := "" }

/-- Association-list read, modelling `d[k]` as an `Option`. -/
def alGet {α β : Type} [DecidableEq α] : List (α × β) → α → Option β
  | [], _ => none
  | (k, v) :: rest, key => if k = key then some v else alGet rest key

/-- Association-list write `d[k] = v`: replace in place if the key exists,
else append (Python dict insertion order). -/
def alPut {α β : Type} [DecidableEq α] : List (α × β) → α → β → List (α × β)
  | [], key, v => [(key, v)]
  | (k, w) :: rest, key, v =>
    if k = key then (key, v) :: rest else (k, w) :: alPut rest key v

/-- `process_quiz_from_topic` (populate_weeks_utils.py). -/
def process_quiz_from_topic (topic : String)
    (sample_quiz_urls : List (String × String)) : QuizInfo :=
  if topic = "" then emptyQuizInfo
  else
    let topic_str := pyStrip topic
    match searchNum "Quiz" topic_str with
    | none => emptyQuizInfo
    | some n =>
      { has_quiz := true, quiz_number := n,
        study_text := "Study for Quiz " ++ n,
        sample_text := "Sample Quiz " ++ n,
        sample_quiz_url := (alGet sample_quiz_urls n).getD "" }

/-- checkout_info dict built by `process_checkout_from_topic`. -/
structure CheckoutInfo where
  has_checkout : Bool
  checkout_number : String
deriving Repr, DecidableEq

def emptyCheckoutInfo : CheckoutInfo :=
  { has_checkout := false, checkout_number := "" }

/-- `process_checkout_from_topic` (populate_weeks_utils.py). -/
def process_checkout_from_topic (topic : String) : CheckoutInfo :=
  if topic = "" then emptyCheckoutInfo
  else
    let topic_str := pyStrip topic
    match searchNum "Checkout" topic_str with
    | none => emptyCheckoutInfo
    | some n => { has_checkout := true, checkout_number := n }

/-! ### Dates

A `pandas.Timestamp` / `datetime` cell is modelled by its calendar
components.  `weekday` reproduces `datetime.weekday()` (Monday = 0) via the
Rata-Die day count (day 1 = Monday, January 1 of year 1, proleptic
Gregorian calendar). -/

structure Date where
  year : Nat
  month : Nat
  day : Nat
deriving Repr, DecidableEq

def isLeap (y : Nat) : Bool := (y % 4 = 0 && y % 100 ≠ 0) || y % 400 = 0

def daysInMonth (y m : Nat) : Nat :=
  if m = 2 then (if isLeap y then 29 else 28)
  else if m = 4 ∨ m = 6 ∨ m = 9 ∨ m = 11 then 30
  else 31

/-- A genuine calendar timestamp with a 4-digit year (every value a
`pandas.Timestamp` can hold satisfies this). -/
def validDate (d : Date) : Bool :=
  1 ≤ d.month && d.month ≤ 12 && 1 ≤ d.day && d.day ≤ daysInMonth d.year d.month
    && 1000 ≤ d.year && d.year ≤ 9999

/-- Rata-Die day number of a date (1 = 01/01/0001). -/
def rataDie (d : Date) : Nat :=
  let y := if d.month < 3 then d.year - 1 else d.year
  let m := if d.month < 3 then d.month + 12 else d.month
  365 * y + y / 4 - y / 100 + y / 400 + (153 * (m - 3) + 2) / 5 + d.day - 306

/-- `datetime.weekday()`: Monday = 0 … Sunday = 6. -/
def weekday (d : Date) : Nat := (rataDie d - 1) % 7

/-- The `weekday_names` list of `populate_weeks`. -/
def weekday_names : List String :=
  ["monday", "tuesday", "wednesday", "thursday", "friday", "saturday", "sunday"]

/-- `weekday_names[date_obj.weekday()]`. -/
def weekdayName (d : Date) : String := weekday_names.getD (weekday d) ""

/-- Two-digit zero padding (the `%m` / `%d` fields of `strftime`, and the
Python format spec `{n:02d}`). -/
def pad2Chars (n : Nat) : List Char :=
  if n < 10 then '0' :: natChars n else natChars n

def pad2 (n : Nat) : String := String.mk (pad2Chars n)

/-- `date_obj.strftime("%m/%d/%Y")` as a character list. -/
def formatDateChars (d : Date) : List Char :=
  pad2Chars d.month ++ '/' :: (pad2Chars d.day ++ '/' :: natChars d.year)

/-- `date_obj.strftime("%m/%d/%Y")`. -/
def formatDate (d : Date) : String := String.mk (formatDateChars d)

/-- Split a character list on `/` (for modelling `strptime` with the
format `%m/%d/%Y`). -/
def splitSlash : List Char → List (List Char)
  | [] => [[]]
  | c :: cs =>
    if c = '/' then [] :: splitSlash cs
    else
      match splitSlash cs with
      | g :: gs => (c :: g) :: gs
      | [] => [[c]]

/-- `datetime.strptime(s, "%m/%d/%Y")` as an `Option`: `%m` and `%d` accept
one or two digits with values in range, `%Y` exactly four digits; the
constructed date must be a real calendar date (`ValueError` otherwise),
and the whole string must be consumed. -/
def parseDateChars (s : List Char) : Option Date :=
  match splitSlash s with
  | [ms, ds, ys] =>
    if ms.all Char.isDigit && ds.all Char.isDigit && ys.all Char.isDigit
        && ms.length ≤ 2 && ds.length ≤ 2 && ys.length = 4
        && !ms.isEmpty && !ds.isEmpty then
      let m := digitsToNat ms
      let d := digitsToNat ds
      let y := digitsToNat ys
      if 1 ≤ m && m ≤ 12 && 1 ≤ d && d ≤ daysInMonth y m && 1 ≤ y then
        some ⟨y, m, d⟩
      else none
    else none
  | _ => none

def parseDate (s : String) : Option Date := parseDateChars s.data

/-- `datetime` comparison (`<=`): lexicographic on (year, month, day). -/
def dateLE (a b : Date) : Bool :=
  a.year < b.year || (a.year = b.year &&
    (a.month < b.month || (a.month = b.month && a.day ≤ b.day)))

instance {ε α : Type} [DecidableEq ε] [DecidableEq α] : DecidableEq (Except ε α) :=
  fun x y =>
    match x, y with
    | .ok a, .ok b =>
      if h : a = b then .isTrue (congrArg Except.ok h)
      else .isFalse (fun c => h (Except.ok.inj c))
    | .error a, .error b =>
      if h : a = b then .isTrue (congrArg Except.error h)
      else .isFalse (fun c => h (Except.error.inj c))
    | .ok _, .error _ => .isFalse (fun c => Except.noConfusion c)
    | .error _, .ok _ => .isFalse (fun c => Except.noConfusion c)

/-! ### `title_to_url_safe` (populate_weeks_utils.py) -/

def isLowerAlnum (c : Char) : Bool :=
  ('a' ≤ c && c ≤ 'z') || ('0' ≤ c && c ≤ '9')

/-- Combined effect of `re.sub(r"[^a-z0-9]+", "-", s)` followed by
`re.sub(r"-+", "-", s)`: every maximal run of non-alphanumeric characters
becomes a single hyphen. -/
def squashNonAlnum : List Char → Bool → List Char
  | [], _ => []
  | c :: cs, lastDash =>
    if isLowerAlnum c then c :: squashNonAlnum cs false
    else if lastDash then squashNonAlnum cs true
    else '-' :: squashNonAlnum cs true

def apostropheChar : Char := Char.ofNat 39

def title_to_url_safe (title : String) : String :=
  if title = "" || pyStrip title = "" then ""
  else
    let l1 := title.data.map Char.toLower
    let l2 := l1.flatMap (fun c => if c = '/' then "-slash-".data else [c])
    let l3 := l2.filter (fun c => c ≠ apostropheChar)
    let l4 := l3.flatMap (fun c => if c = '&' then "and".data else [c])
    let l5 := squashNonAlnum l4 false
    String.mk ((l5.dropWhile (· = '-')).reverse.dropWhile (· = '-')).reverse

/-! ### Data model

`DayRecord` is the per-weekday dict written by `populate_weeks`;
`WeekState` is the in-progress week dict during the row walk (module +
days); `WeekRecord` is the finished week dict after the metadata join.
The heterogeneous result dict (int week keys plus the two string-keyed
auxiliary entries) is modelled as an association list over `Int ⊕ String`. -/

structure DayRecord where
  lesson : String
  date : String
  topic : String
  referenced : String
  assigned : String
  due : String
  quiz_info : QuizInfo
  checkout_info : CheckoutInfo
  prework_video_title : String
  prework_video_link : String
deriving Repr, DecidableEq

structure WeekState where
  module : Option Nat
  days : List (String × DayRecord)
deriving Repr, DecidableEq

def emptyWeekState : WeekState := { module := none, days := [] }

structure Objectives where
  learning_objectives : List String
  learning_objectives_topic : String
deriving Repr, DecidableEq

structure WeekRecord where
  module : Option Nat
  overview_statement : String
  image : String
  days : List (String × DayRecord)
  learning_objectives : List String
  learning_objectives_topic : String
deriving Repr, DecidableEq

/-- One spreadsheet row: the cells used by the engine, at their fixed
column positions (1 = week, 2 = module, 3 = lesson, 4 = date, 6 = topic,
7 = referenced, 8 = assigned, 9 = due, 11 = prework title).  `week = none`
models a NaN cell before forward fill; `date = some d` models a genuine
`pandas.Timestamp`/`datetime` cell, `none` any other value. -/
structure Row where
  week : Option Int
  module_cell : String
  lesson : String
  date : Option Date
  topic : String
  referenced : String
  assigned : String
  due : String
  prework : String
deriving Repr, DecidableEq

/-- Python exceptions the engine can raise. -/
inductive PyErr where
  | keyError (msg : String)
  | valueError (msg : String)
deriving Repr, DecidableEq

/-- A top-level entry of the result dict of `populate_weeks`. -/
inductive Entry where
  | week (r : WeekRecord)
  | icons (urls : List (String × String))
  | linfo (info : List (String × String))
deriving Repr, DecidableEq

abbrev Output := List ((Int ⊕ String) × Entry)

/-- `get_lecture_days_list()` fallback (files/yaml/lecture_info.yaml is not
part of the engine; per spec §9 the list is passed in explicitly, with this
default). -/
def default_lecture_days : List String := ["monday", "wednesday", "friday"]

/-! ### The Schedule Row Walker (`populate_weeks`, populate_weeks.py) -/

/-- `df.iloc[1:, 1].ffill().astype(int)`: forward-fill the week column;
`astype(int)` raises on a leading NaN that forward fill could not reach. -/
def ffillWeeks : List (Option Int) → Option Int → Except PyErr (List Int)
  | [], _ => .ok []
  | c :: rest, prev =>
    match c, prev with
    | none, none => .error (.valueError "cannot convert NaN to integer")
    | none, some w => (ffillWeeks rest (some w)).map (w :: ·)
    | some w, _ => (ffillWeeks rest (some w)).map (w :: ·)

/-- `set(weeks_column)` modelled as first-occurrence deduplication (the
iteration order of a CPython int set is implementation detail; no claim
depends on it). -/
def dedupFirstAux : List Int → List Int → List Int
  | [], _ => []
  | w :: rest, seen =>
    if seen.contains w then dedupFirstAux rest seen
    else w :: dedupFirstAux rest (w :: seen)

def dedupFirst (l : List Int) : List Int := dedupFirstAux l []

/-- `str(weeks[w]["module"])`: the module field starts as the empty string
and afterwards holds an int. -/
def modStr : Option Nat → String
  | none => ""
  | some n => renderNat n

/-- `int("".join(c for c in cell if c.isdigit()))`: `ValueError` when the
cell has no digit characters. -/
def parseModuleCell (cell : String) : Except PyErr Nat :=
  let ds := cell.data.filter Char.isDigit
  if ds.isEmpty then .error (.valueError "invalid literal for int with base 10")
  else .ok (digitsToNat ds)

/-- Current module of week `w` (the key is always present on reachable
states, since the dict is seeded with every forward-filled week number). -/
def weekModule (weeks : List (Int × WeekState)) (w : Int) : Option Nat :=
  ((alGet weeks w).getD emptyWeekState).module

def updateWeekModule (weeks : List (Int × WeekState)) (w : Int) (m : Option Nat) :
    List (Int × WeekState) :=
  weeks.map (fun p => if p.1 = w then (p.1, { p.2 with module := m }) else p)

def updateWeekDays (weeks : List (Int × WeekState)) (w : Int) (key : String)
    (d : DayRecord) : List (Int × WeekState) :=
  weeks.map (fun p => if p.1 = w then (p.1, { p.2 with days := alPut p.2.days key d }) else p)

/-- The module-assignment step of the row walk (populate_weeks.py lines
56-59): `w` is the forward-filled week of the current row, `prevW` the
forward-filled week of the immediately preceding row (`none` for the first
processed row, where `weeks_column[index - 1]` raises `KeyError`). -/
def moduleStep (weeks : List (Int × WeekState)) (w : Int) (prevW : Option Int)
    (cell : String) : Except PyErr (List (Int × WeekState)) :=
  if !strContains (modStr (weekModule weeks w)) "Mod" && cell ≠ "" then
    match parseModuleCell cell with
    | .ok n => .ok (updateWeekModule weeks w (some n))
    | .error e => .error e
  else if cell = "" then
    match prevW with
    | none => .error (.keyError "weeks_column[0]")
    | some pw => .ok (updateWeekModule weeks w (weekModule weeks pw))
  else .ok weeks

/-- The day record written for a row whose date cell is a genuine
timestamp `d`; `modAfter` is the week's module after the module step (read
fresh for the prework-title prefix). -/
def mkDayRecord (row : Row) (d : Date) (modAfter : Option Nat)
    (sample_quiz_urls : List (String × String)) (course_id : Option String) :
    DayRecord :=
  let qi := process_quiz_from_topic row.topic sample_quiz_urls
  let ci := process_checkout_from_topic row.topic
  let pw_raw := pyStrip row.prework
  let tl : String × String :=
    if pw_raw ≠ "" then
      let t := "Prework Module " ++ modStr modAfter ++ " - " ++ pw_raw
      let slug := title_to_url_safe t
      match course_id with
      | some cid =>
        if slug ≠ "" && cid ≠ "" then
          (t, "https://umich.instructure.com/courses/" ++ cid ++ "/pages/" ++ slug)
        else (t, "")
      | none => (t, "")
    else (row.prework, "")
  { lesson := row.lesson, date := formatDate d, topic := row.topic,
    referenced := row.referenced, assigned := row.assigned, due := row.due,
    quiz_info := qi, checkout_info := ci,
    prework_video_title := tl.1, prework_video_link := tl.2 }

structure WalkState where
  weeks : List (Int × WeekState)
  warnings : List String
deriving Repr, DecidableEq

/-- Processing of one data row (populate_weeks.py lines 49-99): module
assignment first, then the date check deciding whether a day record is
written or a warning emitted. -/
def processRow (sample_quiz_urls : List (String × String))
    (course_id : Option String) (st : WalkState) (idx : Nat) (w : Int)
    (prevW : Option Int) (row : Row) : Except PyErr WalkState :=
  match moduleStep st.weeks w prevW row.module_cell with
  | .error e => .error e
  | .ok weeks1 =>
    match row.date with
    | some d =>
      let recd := mkDayRecord row d (weekModule weeks1 w) sample_quiz_urls course_id
      .ok { weeks := updateWeekDays weeks1 w (weekdayName d) recd,
            warnings := st.warnings }
    | none =>
      .ok { weeks := weeks1,
            warnings := st.warnings ++
              ["Warning: Row " ++ renderNat idx ++ " has non-datetime value in date field"] }

def walkRows (sample_quiz_urls : List (String × String))
    (course_id : Option String) :
    Nat → Option Int → List (Row × Int) → WalkState → Except PyErr WalkState
  | _, _, [], st => .ok st
  | idx, prevW, (row, w) :: rest, st =>
    match processRow sample_quiz_urls course_id st idx w prevW row with
    | .error e => .error e
    | .ok st1 => walkRows sample_quiz_urls course_id (idx + 1) (some w) rest st1

/-- The initialization loop (populate_weeks.py lines 42-47): looks up the
per-week overview description and image URL, raising `KeyError` on a miss. -/
def checkInit (weekKeys : List Int) (overview : List (Int × String))
    (image_urls : List (Int × String)) :
    Except PyErr (List (Int × String × String)) :=
  match weekKeys with
  | [] => .ok []
  | w :: rest =>
    match alGet overview w with
    | none => .error (.keyError ("overview_data, week " ++ renderInt w))
    | some ov =>
      match alGet image_urls w with
      | none => .error (.keyError ("image_urls, week " ++ renderInt w))
      | some im => (checkInit rest overview image_urls).map ((w, ov, im) :: ·)

/-- The objectives join (populate_weeks.py lines 101-103): looks up each
week's resolved module in the objectives metadata, raising `KeyError` on a
miss (also when the module was never assigned and is still the empty
string). -/
def joinObjectives (objectives : List (Nat × Objectives))
    (weeks : List (Int × WeekState)) :
    List (Int × String × String) → Except PyErr Output
  | [] => .ok []
  | (w, ov, im) :: rest =>
    match weekModule weeks w with
    | none => .error (.keyError "objective_data, module never assigned")
    | some m =>
      match alGet objectives m with
      | none => .error (.keyError ("objective_data, module " ++ renderNat m))
      | some ob =>
        (joinObjectives objectives weeks rest).map
          ((Sum.inl w,
            Entry.week
              { module := some m, overview_statement := ov, image := im,
                days := ((alGet weeks w).getD emptyWeekState).days,
                learning_objectives := ob.learning_objectives,
                learning_objectives_topic := ob.learning_objectives_topic }) :: ·)

/-- `populate_weeks` (populate_weeks.py): the first data row (index 0) is
skipped; external YAML/Canvas inputs arrive as already-materialized
key-value lists.  The two auxiliary entries are appended to the same
result mapping, after all numeric week keys. -/
def populate_weeks (rows : List Row) (overview : List (Int × String))
    (objectives : List (Nat × Objectives)) (image_urls : List (Int × String))
    (icon_urls : List (String × String)) (lecture_info : List (String × String))
    (sample_quiz_urls : List (String × String)) (course_id : Option String) :
    Except PyErr Output :=
  match ffillWeeks ((rows.drop 1).map (·.week)) none with
  | .error e => .error e
  | .ok wcol =>
    let weekKeys := dedupFirst wcol
    match checkInit weekKeys overview image_urls with
    | .error e => .error e
    | .ok inits =>
      let init : List (Int × WeekState) := weekKeys.map (fun w => (w, emptyWeekState))
      match walkRows sample_quiz_urls course_id 1 none ((rows.drop 1).zip wcol)
          { weeks := init, warnings := [] } with
      | .error e => .error e
      | .ok st =>
        match joinObjectives objectives st.weeks inits with
        | .error e => .error e
        | .ok weekEntries =>
          .ok (weekEntries ++
            [(Sum.inr "icon_urls", Entry.icons icon_urls),
             (Sum.inr "lecture_info", Entry.linfo lecture_info)])

/-! ### Cross-Reference Resolver

Queries over the finished week mapping.  They are modelled over the
numeric part of the result dict (`List (Int × WeekRecord)` in insertion
order); the two auxiliary string-keyed entries have no weekday keys and
contribute nothing to any of these scans. -/

/-- The guard of the due-date scan: `if due_text and hw_number in
str(due_text)` (truthiness of the due text, then substring containment). -/
def dueMatch (hw : String) (due : String) : Bool :=
  due ≠ "" && strContains due hw

/-- Inner loop of `find_homework_due_date_across_weeks`: first day (in the
fixed weekday order) whose non-empty `due` text contains `hw` as a
substring; returns that day's date. -/
def findDueInWeek (wd : WeekRecord) (hw : String) : List String → Option String
  | [] => none
  | day :: rest =>
    match alGet wd.days day with
    | some dr =>
      if dueMatch hw dr.due then some dr.date
      else findDueInWeek wd hw rest
    | none => findDueInWeek wd hw rest

/-- `find_homework_due_date_across_weeks` (populate_weeks_utils.py lines
527-548): scans weeks in dict order, skipping keys whose string form is
not all digits, and days in the fixed weekday order; `"TBD"` if nothing
matches. -/
def find_homework_due_date_across_weeks :
    List (Int × WeekRecord) → String → String
  | [], _ => "TBD"
  | (w, wd) :: rest, hw =>
    if !isDigitStr (renderInt w) then find_homework_due_date_across_weeks rest hw
    else
      match findDueInWeek wd hw weekday_names with
      | some date => date
      | none => find_homework_due_date_across_weeks rest hw

/-- `find_homework_due_date` (build_htmls/build_hw.py lines 112-129): same
scan without the numeric-key filter. -/
def find_homework_due_date : List (Int × WeekRecord) → String → String
  | [], _ => "TBD"
  | (_, wd) :: rest, hw =>
    match findDueInWeek wd hw weekday_names with
    | some date => date
    | none => find_homework_due_date rest hw

/-- One entry of the list built by `collect_quiz_dates`. -/
structure QuizOcc where
  quiz_number : Nat
  date : String
  week_number : Int
  day : String
deriving Repr, DecidableEq

/-- The guard of the quiz collection loop: `quiz_info.get("has_quiz")`,
then truthiness of the quiz number and of the date. -/
def quizGuard (dr : DayRecord) : Bool :=
  dr.quiz_info.has_quiz && dr.quiz_info.quiz_number ≠ "" && dr.date ≠ ""

def collectQuizInWeek (w : Int) (wd : WeekRecord) : List String → List QuizOcc
  | [] => []
  | day :: rest =>
    match alGet wd.days day with
    | some dr =>
      if quizGuard dr then
        { quiz_number := digitsToNat dr.quiz_info.quiz_number.data,
          date := dr.date, week_number := w, day := day }
          :: collectQuizInWeek w wd rest
      else collectQuizInWeek w wd rest
    | none => collectQuizInWeek w wd rest

def collectQuizAll (lecture_days : List String) :
    List (Int × WeekRecord) → List QuizOcc
  | [] => []
  | (w, wd) :: rest =>
    collectQuizInWeek w wd lecture_days ++ collectQuizAll lecture_days rest

/-- `collect_quiz_dates` (populate_weeks_utils.py lines 258-297): collect
quiz occurrences on the configured lecture days, then sort ascending by
quiz number (`list.sort` is stable; so is insertion sort). -/
def collect_quiz_dates (weeks : List (Int × WeekRecord))
    (lecture_days : List String) : List QuizOcc :=
  List.insertionSort (fun a b => a.quiz_number ≤ b.quiz_number)
    (collectQuizAll lecture_days weeks)

/-- The reference-date loop shared by `find_next_quiz` /
`find_next_checkout`: first configured lecture day of the week that is
present and has a non-empty date. -/
def firstLectureDate (days : List (String × DayRecord)) : List String → Option String
  | [] => none
  | d :: rest =>
    match alGet days d with
    | some dr => if dr.date ≠ "" then some dr.date else firstLectureDate days rest
    | none => firstLectureDate days rest

/-- The candidate scan shared by `find_next_quiz` / `find_next_checkout`:
first item whose date parses and is on-or-after `ref`; items with
unparseable dates are skipped. -/
def firstOnOrAfter {α : Type} (dateOf : α → String) (ref : Date) :
    List α → Option α
  | [] => none
  | q :: rest =>
    match parseDate (dateOf q) with
    | some dq => if dateLE ref dq then some q else firstOnOrAfter dateOf ref rest
    | none => firstOnOrAfter dateOf ref rest

/-- `find_next_quiz` (populate_weeks_utils.py lines 300-352). -/
def find_next_quiz (weeks : List (Int × WeekRecord))
    (lecture_days : List String) (current_week_num : Int) : Option QuizOcc :=
  let all := collect_quiz_dates weeks lecture_days
  if all.isEmpty then none
  else
    let cw := ((alGet weeks current_week_num).map (·.days)).getD []
    match firstLectureDate cw lecture_days with
    | none => all.head?
    | some ds =>
      match parseDate ds with
      | none => all.head?
      | some ref => firstOnOrAfter (·.date) ref all

/-- One entry of the list built by `collect_checkout_assignments`. -/
structure CheckoutOcc where
  checkout_number : Nat
  date : String
  week_number : Int
  day : String
  module : Nat
deriving Repr, DecidableEq

def collectCheckoutInWeek (w : Int) (wd : WeekRecord) :
    List String → List CheckoutOcc
  | [] => []
  | day :: rest =>
    match alGet wd.days day with
    | some dr =>
      match extract_checkout_number dr.topic with
      | some n =>
        if n ≠ "" then
          { checkout_number := digitsToNat n.data, date := dr.date,
            week_number := w, day := day, module := digitsToNat n.data }
            :: collectCheckoutInWeek w wd rest
        else collectCheckoutInWeek w wd rest
      | none => collectCheckoutInWeek w wd rest
    | none => collectCheckoutInWeek w wd rest

def collectCheckoutAll : List (Int × WeekRecord) → List CheckoutOcc
  | [] => []
  | (w, wd) :: rest =>
    if !isDigitStr (renderInt w) then collectCheckoutAll rest
    else collectCheckoutInWeek w wd weekday_names ++ collectCheckoutAll rest

/-- `collect_checkout_assignments` (checkout_utils.py lines 34-72): all
seven weekdays are scanned, non-numeric week keys skipped; result sorted
ascending by checkout number. -/
def collect_checkout_assignments (weeks : List (Int × WeekRecord)) :
    List CheckoutOcc :=
  List.insertionSort (fun a b => a.checkout_number ≤ b.checkout_number)
    (collectCheckoutAll weeks)

/-- `find_next_checkout` (populate_weeks_utils.py lines 355-408). -/
def find_next_checkout (weeks : List (Int × WeekRecord))
    (lecture_days : List String) (current_week_num : Int) : Option CheckoutOcc :=
  let all := collect_checkout_assignments weeks
  if all.isEmpty then none
  else
    let cw := ((alGet weeks current_week_num).map (·.days)).getD []
    match firstLectureDate cw lecture_days with
    | none => all.head?
    | some ds =>
      match parseDate ds with
      | none => all.head?
      | some ref => firstOnOrAfter (·.date) ref all

/-! ### Homework range per module (quiz_utils.py lines 118-163) -/

/-- Homework numbers contributed by one text cell: the `"HW" in upper`
guard followed by the case-insensitive `HW\s*(\d+)` search. -/
def hwFromText (t : String) : List Nat :=
  if t ≠ "" && strContains (pyUpper t) "HW" then
    match searchNum "HW" t with
    | some n => [digitsToNat n.data]
    | none => []
  else []

def collectHwInWeek (wd : WeekRecord) : List String → List Nat
  | [] => []
  | day :: rest =>
    match alGet wd.days day with
    | some dr => hwFromText dr.assigned ++ hwFromText dr.due ++ collectHwInWeek wd rest
    | none => collectHwInWeek wd rest

def collectHwAll (m : Nat) : List (Int × WeekRecord) → List Nat
  | [] => []
  | (_, wd) :: rest =>
    if wd.module = some m then collectHwInWeek wd weekday_names ++ collectHwAll m rest
    else collectHwAll m rest

/-- `sorted(list(set(l)))`: strictly ascending list of the distinct
elements. -/
def insertSortedDedup (n : Nat) : List Nat → List Nat
  | [] => [n]
  | m :: ms =>
    if n < m then n :: m :: ms
    else if n = m then m :: ms
    else m :: insertSortedDedup n ms

def sortedDedup (l : List Nat) : List Nat := l.foldr insertSortedDedup []

/-- `get_homework_range_for_module` (quiz_utils.py). -/
def get_homework_range_for_module (weeks : List (Int × WeekRecord))
    (module_number : Nat) : String :=
  let collected := collectHwAll module_number weeks
  if collected.isEmpty then "HW" ++ pad2 module_number
  else
    let ns := sortedDedup collected
    match ns with
    | [] => "HW" ++ pad2 module_number
    | [a] => "HW" ++ pad2 a
    | [a, b] => "HW" ++ pad2 a ++ " & HW" ++ pad2 b
    | a :: _ :: _ :: _ => "HW" ++ pad2 a ++ "-HW" ++ pad2 (ns.getLastD 0)

/-! ### Lesson range per module (quiz_utils.py lines 7-115)

`get_lesson_range_for_module` re-reads the raw rows; it receives them here
as the same `List Row` the walker consumed (spec §9 performance note).
Row 0 is skipped, exactly as in the walker, and the `df.iloc` backward
lookups address rows by absolute index. -/

def lessonAt (rows : List Row) (i : Nat) : String :=
  match rows[i]? with
  | some r => pyStrip r.lesson
  | none => ""

/-- A usable lesson cell: non-empty and not the placeholder `"-"`. -/
def isValidLesson (l : String) : Bool := l ≠ "" && l ≠ "-"

/-- `for back_idx in range(j, 0, -1)`: nearest row index in `j, j-1, …, 1`
with a non-empty, non-placeholder lesson cell; `dflt` if none. -/
def backSearch (rows : List Row) : Nat → String → String
  | 0, dflt => dflt
  | j + 1, dflt =>
    if isValidLesson (lessonAt rows (j + 1)) then lessonAt rows (j + 1)
    else backSearch rows j dflt

structure LRState where
  ranges : List (Nat × String)
  current_module : Option Nat
  start_lesson : Option String
deriving Repr, DecidableEq

def fmtRange (s e : String) : String := if s = e then s else s ++ "-" ++ e

/-- End lesson when closing a module at a transition occurring at row
`index`: the previous row's lesson if valid, else the nearest preceding
valid lesson, else the start lesson. -/
def lrCloseEnd (rows : List Row) (index : Nat) (startL : String) : String :=
  let prev_index := index - 1
  if prev_index > 0 then
    if isValidLesson (lessonAt rows prev_index) then lessonAt rows prev_index
    else backSearch rows prev_index startL
  else startL

/-- Closing of the currently open module's range at a transition occurring
at row `index` (dict write `module_ranges[current_module] = …`). -/
def lrClose (rows : List Row) (index : Nat) (st : LRState) : List (Nat × String) :=
  match st.current_module, st.start_lesson with
  | some cm, some sl =>
    if sl ≠ "" then alPut st.ranges cm (fmtRange sl (lrCloseEnd rows index sl))
    else st.ranges
  | _, _ => st.ranges

/-- `int(match.group(1))` for the module-cell regex
`(?:Module?\.?\s*)?(\d+)`: the first maximal digit run. -/
def extractedModule (cell : String) : Option Nat :=
  (firstDigitRun cell.data).map digitsToNat

def lrStep (rows : List Row) (index : Nat) (row : Row) (st : LRState) : LRState :=
  let module_cell := pyStrip row.module_cell
  let lesson_cell := pyStrip row.lesson
  let extracted : Option Nat :=
    if module_cell ≠ "" then extractedModule module_cell else none
  if isValidLesson lesson_cell then
    let transition :=
      st.current_module.isNone ||
        (match extracted with
         | some n => n ≠ 0 && some n ≠ st.current_module
         | none => false)
    if transition then
      let ranges1 := lrClose rows index st
      match extracted with
      | some n =>
        if n ≠ 0 then
          { ranges := ranges1, current_module := some n, start_lesson := some lesson_cell }
        else { st with ranges := ranges1 }
      | none => { st with ranges := ranges1 }
    else st
  else st

def lrWalk (rows : List Row) : Nat → List Row → LRState → LRState
  | _, [], st => st
  | i, r :: rest, st =>
    if i = 0 then lrWalk rows (i + 1) rest st
    else lrWalk rows (i + 1) rest (lrStep rows i r st)

/-- Closing of the last open module at end of input: end lesson is the last
valid lesson of the whole sheet (search from `len(df) - 1` down to `1`). -/
def lrFinal (rows : List Row) (st : LRState) : List (Nat × String) :=
  match st.current_module, st.start_lesson with
  | some cm, some sl =>
    if sl ≠ "" then alPut st.ranges cm (fmtRange sl (backSearch rows (rows.length - 1) sl))
    else st.ranges
  | _, _ => st.ranges

/-- `get_lesson_range_for_module` (quiz_utils.py). -/
def get_lesson_range_for_module (rows : List Row) (module_number : Nat) : String :=
  let st := lrWalk rows 0 rows { ranges := [], current_module := none, start_lesson := none }
  let ranges := lrFinal rows st
  match alGet ranges module_number with
  | some r => r
  | none => renderNat module_number ++ "A-" ++ renderNat module_number ++ "D"

/-! ### Spec-side definitions

Definitions written from the wording of the specification / claims, to be
compared with the source embeddings above. -/

/-- C1 spec reading of the module-assignment rule: decide on the pair
(does the string form of the week's stored module contain the marker
`"Mod"`?, is the row's module cell empty?); set from the digit characters
of the cell in the (no-marker, non-empty) case, inherit the resolved
module of the preceding row's week in the empty case, leave unchanged
otherwise. -/
def specModuleStep (weeks : List (Int × WeekState)) (w : Int) (prevW : Option Int)
    (cell : String) : Except PyErr (List (Int × WeekState)) :=
  match strContains (modStr (weekModule weeks w)) "Mod", decide (cell = "") with
  | false, false =>
    match cell.data.filter Char.isDigit with
    | [] => .error (.valueError "invalid literal for int with base 10")
    | c :: cs => .ok (updateWeekModule weeks w (some (digitsToNat (c :: cs))))
  | _, true =>
    match prevW with
    | none => .error (.keyError "weeks_column[0]")
    | some pw => .ok (updateWeekModule weeks w (weekModule weeks pw))
  | true, false => .ok weeks

/-- C2 spec reading: the flat candidate list of (due text, date) pairs, in
week order (for a built mapping, ascending week-key order) and, within a
week, fixed weekday order; weeks whose key's string form is not all digits
contribute nothing. -/
def dueCandidates (weeks : List (Int × WeekRecord)) : List (String × String) :=
  weeks.flatMap fun p =>
    if isDigitStr (renderInt p.1) then
      weekday_names.filterMap fun day =>
        (alGet p.2.days day).map fun dr => (dr.due, dr.date)
    else []

/-- C2 spec reading of `findDueDateForHomework`: date of the first
candidate whose non-empty due text contains the homework number as a
substring, else the sentinel `"TBD"`. -/
def specFindDueDate (weeks : List (Int × WeekRecord)) (hw : String) : String :=
  match (dueCandidates weeks).find? fun c => dueMatch hw c.1 with
  | some c => c.2
  | none => "TBD"

/-- C3 spec reading of the quiz collection: per week (in mapping order),
the lecture days in configured order, keeping days that carry a quiz with
a number and a date. -/
def specCollectQuizzes (weeks : List (Int × WeekRecord))
    (lecture_days : List String) : List QuizOcc :=
  List.insertionSort (fun a b => a.quiz_number ≤ b.quiz_number)
    (weeks.flatMap fun p =>
      lecture_days.filterMap fun day =>
        (alGet p.2.days day).bind fun dr =>
          if quizGuard dr then
            some { quiz_number := digitsToNat dr.quiz_info.quiz_number.data,
                   date := dr.date, week_number := p.1, day := day }
          else none)

/-- C3 spec reading of the reference date: the earliest lecture day of the
week (in weekday order, restricted to the configured lecture days) that is
present and dated. -/
def specRefDate (lecture_days : List String) (days : List (String × DayRecord)) :
    Option String :=
  ((weekday_names.filter fun day => lecture_days.contains day).filterMap
    fun day => (alGet days day).bind fun dr =>
      if dr.date ≠ "" then some dr.date else none).head?

/-- C3 spec reading of `findNextQuiz` (with the default lecture-day
configuration): sorted collection, reference date from the earliest dated
lecture day of the current week, first collected quiz on-or-after it;
first quiz unconditionally when the current week has no dated lecture
day. -/
def spec_find_next_quiz (weeks : List (Int × WeekRecord)) (current_week_num : Int) :
    Option QuizOcc :=
  let all := specCollectQuizzes weeks default_lecture_days
  if all.isEmpty then none
  else
    match specRefDate default_lecture_days
        (((alGet weeks current_week_num).map (·.days)).getD []) with
    | none => all.head?
    | some ds =>
      match parseDate ds with
      | none => all.head?
      | some ref =>
        all.find? fun q =>
          match parseDate q.date with
          | some dq => dateLE ref dq
          | none => false

/-- C5 spec reading of the result format, as a function of the sorted
deduplicated homework-number list. -/
def specHwFormat (ns : List Nat) (module_number : Nat) : String :=
  match ns with
  | [] => "HW" ++ pad2 module_number
  | [a] => "HW" ++ pad2 a
  | [a, b] => "HW" ++ pad2 a ++ " & HW" ++ pad2 b
  | a :: rest => "HW" ++ pad2 a ++ "-HW" ++ pad2 (rest.getLastD a)

/-- Every stored range value has the shape `fmtRange s e` (a single lesson
label when start equals end, `"start-end"` otherwise). -/
def RangeShaped (l : List (Nat × String)) : Prop :=
  ∀ p ∈ l, ∃ s e, p.2 = fmtRange s e

/-- Strict lexicographic date comparison (for stating C10). -/
def dateLT (a b : Date) : Bool :=
  a.year < b.year || (a.year = b.year &&
    (a.month < b.month || (a.month = b.month && a.day < b.day)))

/-! ### Example data used in the claim theorems and witnesses -/

def dEmpty : DayRecord :=
  { lesson := "", date := "", topic := "", referenced := "", assigned := "",
    due := "", quiz_info := emptyQuizInfo, checkout_info := emptyCheckoutInfo,
    prework_video_title := "", prework_video_link := "" }

def wEmpty : WeekRecord :=
  { module := none, overview_statement := "", image := "", days := [],
    learning_objectives := [], learning_objectives_topic := "" }

def rBlank : Row :=
  { week := some 1, module_cell := "", lesson := "", date := none,
    topic := "", referenced := "", assigned := "", due := "", prework := "" }

/-- Quiz 1, dated 01/10/2025 (a Friday). -/
def qd1 : DayRecord :=
  { dEmpty with
      date := "01/10/2025",
      quiz_info := { emptyQuizInfo with has_quiz := true, quiz_number := "1" } }

/-- Quiz 2, dated 01/24/2025 (a Friday). -/
def qd2 : DayRecord :=
  { dEmpty with
      date := "01/24/2025",
      quiz_info := { emptyQuizInfo with has_quiz := true, quiz_number := "2" } }

/-- A dated lecture day, 01/15/2025 (a Wednesday). -/
def qdRef : DayRecord := { dEmpty with date := "01/15/2025" }

/-- C3 example: quiz 1 on 01/10/2025, quiz 2 on 01/24/2025, current week
(week 2) with reference date 01/15/2025. -/
def exWeeksC3 : List (Int × WeekRecord) :=
  [(1, { wEmpty with days := [("friday", qd1)] }),
   (2, { wEmpty with days := [("wednesday", qdRef)] }),
   (3, { wEmpty with days := [("friday", qd2)] })]

/-- C4 example: module 1 spans lessons 1A, 1B, 1C; module 2 starts at 2A
(row 0 is the skipped first data row). -/
def lrRowsEx : List Row :=
  [rBlank,
   { rBlank with module_cell := "Mod 1", lesson := "1A" },
   { rBlank with lesson := "1B" },
   { rBlank with lesson := "1C" },
   { rBlank with module_cell := "Mod 2", lesson := "2A" }]

/-- C4 example with placeholder lesson cells (`"-"`). -/
def lrRowsPlaceholder : List Row :=
  [rBlank,
   { rBlank with module_cell := "Mod 1", lesson := "1A" },
   { rBlank with lesson := "-" },
   { rBlank with module_cell := "Mod 2", lesson := "2A" },
   { rBlank with lesson := "-" }]

def hwDay (a d : String) : DayRecord := { dEmpty with assigned := a, due := d }

/-- C5 example: module 4 weeks containing homework number 3 only. -/
def hwWeeksSingle : List (Int × WeekRecord) :=
  [(1, { wEmpty with module := some 4, days := [("monday", hwDay "HW3" "")] })]

/-- C5 example: module 4 weeks containing homework numbers 1 and 2. -/
def hwWeeksPair : List (Int × WeekRecord) :=
  [(1, { wEmpty with
           module := some 4,
           days := [("monday", hwDay "HW1" ""), ("wednesday", hwDay "HW2" "HW1")] })]

/-- C5 example: module 4 weeks containing homework numbers 1, 2, 3. -/
def hwWeeksTriple : List (Int × WeekRecord) :=
  [(1, { wEmpty with
           module := some 4,
           days := [("monday", hwDay "HW1" ""), ("wednesday", hwDay "HW2" "HW3")] })]

/-- C2 example: homework 1 assigned Monday, due Wednesday 01/08/2025. -/
def dueWeeksEx : List (Int × WeekRecord) :=
  [(1, { wEmpty with
           days := [("monday", { dEmpty with assigned := "HW1" }),
                    ("wednesday", { dEmpty with due := "HW1", date := "01/08/2025" })] })]

def wRow (w : Int) (m : String) : Row := { rBlank with week := some w, module_cell := m }

/-- C1 example rows: weeks 1..5, module cells populated only at weeks
1, 3, 5 (row 0 is the skipped first data row). -/
def c1Rows : List Row :=
  [rBlank, wRow 1 "Mod 1", wRow 2 "", wRow 3 "Mod 3", wRow 4 "", wRow 5 "Mod 5"]

def ovsEx : List (Int × String) := [(1, "o1"), (2, "o2"), (3, "o3"), (4, "o4"), (5, "o5")]

def imsEx : List (Int × String) := [(1, "i1"), (2, "i2"), (3, "i3"), (4, "i4"), (5, "i5")]

def objsEx : List (Nat × Objectives) :=
  [(1, ⟨["a"], "t1"⟩), (3, ⟨["b"], "t3"⟩), (5, ⟨["c"], "t5"⟩)]

/-- The built output for the C1 example. -/
def c1Out : Except PyErr Output := populate_weeks c1Rows ovsEx objsEx imsEx [] [] [] none

/-- Module field of a week entry of a build result. -/
def outModule (o : Except PyErr Output) (w : Int) : Option (Option Nat) :=
  match o with
  | .ok l =>
    match alGet l (Sum.inl w) with
    | some (Entry.week r) => some r.module
    | _ => none
  | .error _ => none

/-- C9 example: objectives metadata missing module 3, which week 3
resolves to. -/
def objsMissing : List (Nat × Objectives) := [(1, ⟨["a"], "t1"⟩), (5, ⟨["c"], "t5"⟩)]

/-- C10 example: the only quiz (quiz 1) is dated 01/03/2025, strictly
before the current week's reference date 01/15/2025. -/
def oldWeeksEx : List (Int × WeekRecord) :=
  [(1, { wEmpty with days := [("friday",
      { dEmpty with
          date := "01/03/2025",
          quiz_info := { emptyQuizInfo with has_quiz := true, quiz_number := "1" } })] }),
   (2, { wEmpty with days := [("wednesday", qdRef)] })]

/-- C7 witness row: module cell `"Mod 1"`, date cell the timestamp
01/06/2025 (a Monday). -/
def c7Row : Row := { rBlank with module_cell := "Mod 1", date := some ⟨2025, 1, 6⟩ }

/-- The objectives join misses for week `w`: its module is unset (still the
empty string) or absent from the objectives metadata. -/
def objectivesMiss (objectives : List (Nat × Objectives))
    (weeks : List (Int × WeekState)) (w : Int) : Bool :=
  match weekModule weeks w with
  | none => true
  | some m => (alGet objectives m).isNone

def icons8 : List (String × String) := [("icon1", "url1")]

def linfo8 : List (String × String) := [("lecture_days", "Monday, Wednesday, & Friday")]

/-- The forward-filled week column of the C1 example rows. -/
def wcol8 : List Int := [1, 2, 3, 4, 5]

/-- The successful build on the C1 example rows with the auxiliary inputs
`icons8` and `linfo8`. -/
def c8Out : Output :=
  match populate_weeks c1Rows ovsEx objsEx imsEx icons8 linfo8 [] none with
  | .ok o => o
  | .error _ => []

/-- The init-phase result for the C1 example rows. -/
def c9Inits : List (Int × String × String) :=
  [(1, "o1", "i1"), (2, "o2", "i2"), (3, "o3", "i3"), (4, "o4", "i4"), (5, "o5", "i5")]

/-- The walk result for the C1 example rows. -/
def c9St : WalkState :=
  match walkRows [] none 1 none ((c1Rows.drop 1).zip wcol8)
      { weeks := (dedupFirst wcol8).map (fun w => (w, emptyWeekState)),
        warnings := [] } with
  | .ok st => st
  | .error _ => { weeks := [], warnings := [] }

/-! ### Lemmas: decimal rendering and date round-trip -/

theorem natCharsCore_append (fuel : Nat) : ∀ (n : Nat) (acc : List Char),
    natCharsCore fuel n acc = natCharsCore fuel n [] ++ acc := by
  induction fuel with
  | zero => intro n acc; rfl
  | succ f ih =>
    intro n acc
    by_cases h : n < 10
    · simp [natCharsCore, h]
    · simp only [natCharsCore, h, if_false]
      rw [ih (n / 10) (digCh (n % 10) :: acc), ih (n / 10) [digCh (n % 10)]]
      simp

theorem natCharsCore_fuel : ∀ (f g n : Nat) (acc : List Char), n < f → n < g →
    natCharsCore f n acc = natCharsCore g n acc := by
  intro f
  induction f with
  | zero => intro g n acc hf; omega
  | succ f ih =>
    intro g n acc hf hg
    cases g with
    | zero => omega
    | succ g =>
      by_cases h : n < 10
      · simp [natCharsCore, h]
      · simp only [natCharsCore, h, if_false]
        have hd : n / 10 < n := Nat.div_lt_self (by omega) (by omega)
        exact ih g (n / 10) _ (by omega) (by omega)

theorem natChars_eq (n : Nat) :
    natChars n = if n < 10 then [digCh n] else natChars (n / 10) ++ [digCh (n % 10)] := by
  by_cases h : n < 10
  · simp [natChars, natCharsCore, h]
  · have hd : n / 10 < n := Nat.div_lt_self (by omega) (by omega)
    have step : natChars n = natCharsCore n (n / 10) [digCh (n % 10)] := by
      simp [natChars, natCharsCore, h]
    rw [if_neg h, step,
      natCharsCore_fuel n (n / 10 + 1) (n / 10) _ (by omega) (by omega),
      natCharsCore_append]
    rfl

theorem digitsToNat_append_one (l : List Char) (c : Char) :
    digitsToNat (l ++ [c]) = 10 * digitsToNat l + digitVal c := by
  simp [digitsToNat, List.foldl_append]

theorem digCh_facts (n : Nat) (h : n < 10) :
    digitVal (digCh n) = n ∧ (digCh n).isDigit = true := by
  interval_cases n <;> decide

theorem digitsToNat_natChars (n : Nat) : digitsToNat (natChars n) = n := by
  induction n using Nat.strong_induction_on with
  | _ n ih =>
    rw [natChars_eq]
    by_cases h : n < 10
    · simpa [h, digitsToNat] using (digCh_facts n h).1
    · have hd : n / 10 < n := Nat.div_lt_self (by omega) (by omega)
      rw [if_neg h, digitsToNat_append_one, ih _ hd,
        (digCh_facts (n % 10) (by omega)).1]
      omega

theorem natChars_all_digits (n : Nat) : (natChars n).all Char.isDigit = true := by
  induction n using Nat.strong_induction_on with
  | _ n ih =>
    rw [natChars_eq]
    by_cases h : n < 10
    · simpa [h] using (digCh_facts n h).2
    · have hd : n / 10 < n := Nat.div_lt_self (by omega) (by omega)
      simp [h, List.all_append, ih _ hd, (digCh_facts (n % 10) (by omega)).2]

theorem natChars_len_small (n : Nat) (h : n < 10) : (natChars n).length = 1 := by
  rw [natChars_eq]; simp [h]

theorem natChars_len_step (n : Nat) (h : ¬ n < 10) :
    (natChars n).length = (natChars (n / 10)).length + 1 := by
  rw [natChars_eq]; simp [h]

theorem natChars_len4 (n : Nat) (h1 : 1000 ≤ n) (h2 : n ≤ 9999) :
    (natChars n).length = 4 := by
  rw [natChars_len_step n (by omega), natChars_len_step (n / 10) (by omega),
    natChars_len_step (n / 10 / 10) (by omega),
    natChars_len_small (n / 10 / 10 / 10) (by omega)]

theorem splitSlash_no_slash (l : List Char) (h : '/' ∉ l) : splitSlash l = [l] := by
  induction l with
  | nil => rfl
  | cons c cs ih =>
    have hc : c ≠ '/' := fun e => h (e ▸ List.mem_cons_self c cs)
    have hcs : '/' ∉ cs := fun m => h (List.mem_cons_of_mem _ m)
    simp [splitSlash, hc, ih hcs]

theorem splitSlash_append (a rest : List Char) (h : '/' ∉ a) :
    splitSlash (a ++ '/' :: rest) = a :: splitSlash rest := by
  induction a with
  | nil => simp [splitSlash]
  | cons c cs ih =>
    have hc : c ≠ '/' := fun e => h (e ▸ List.mem_cons_self c cs)
    have hcs : '/' ∉ cs := fun m => h (List.mem_cons_of_mem _ m)
    simp [splitSlash, hc, ih hcs]

theorem pad2_facts (n : Nat) (h : n ≤ 31) :
    (pad2Chars n).all Char.isDigit = true ∧ (pad2Chars n).length ≤ 2 ∧
    (pad2Chars n).isEmpty = false ∧ digitsToNat (pad2Chars n) = n := by
  interval_cases n <;> exact ⟨by decide, by decide, by decide, by decide⟩

theorem all_digits_no_slash {l : List Char} (h : l.all Char.isDigit = true) :
    '/' ∉ l := by
  intro m
  exact absurd (List.all_eq_true.mp h _ m) (by decide)

theorem daysInMonth_le_31 (y m : Nat) : daysInMonth y m ≤ 31 := by
  unfold daysInMonth
  split_ifs <;> omega

/-- Round trip: a valid date formatted with `strftime("%m/%d/%Y")` parses
back to itself with `strptime("%m/%d/%Y")`. -/
theorem parseDate_formatDate (d : Date) (h : validDate d = true) :
    parseDate (formatDate d) = some d := by
  obtain ⟨y, mo, da⟩ := d
  simp only [validDate, Bool.and_eq_true, decide_eq_true_eq] at h
  obtain ⟨⟨⟨⟨⟨h1, h2⟩, h3⟩, h4⟩, h5⟩, h6⟩ := h
  have h7 : 1 ≤ y := by omega
  have pm := pad2_facts mo (by omega)
  have pd := pad2_facts da (le_trans h4 (daysInMonth_le_31 y mo))
  have hy := natChars_all_digits y
  have split :
      splitSlash (formatDateChars ⟨y, mo, da⟩) =
        [pad2Chars mo, pad2Chars da, natChars y] := by
    show splitSlash (pad2Chars mo ++ '/' :: (pad2Chars da ++ '/' :: natChars y)) = _
    rw [splitSlash_append _ _ (all_digits_no_slash pm.1),
      splitSlash_append _ _ (all_digits_no_slash pd.1),
      splitSlash_no_slash _ (all_digits_no_slash hy)]
  show parseDateChars (formatDateChars ⟨y, mo, da⟩) = some ⟨y, mo, da⟩
  simp [parseDateChars, split, pm.1, pd.1, hy, natChars_len4 y h5 h6,
    pm.2.2.1, pd.2.2.1, pm.2.1, pd.2.1, pm.2.2.2, pd.2.2.2,
    digitsToNat_natChars, h1, h2, h3, h4, h7]

/-! ### C1: module assignment -/

theorem moduleStep_eq_spec (weeks : List (Int × WeekState)) (w : Int)
    (prevW : Option Int) (cell : String) :
    moduleStep weeks w prevW cell = specModuleStep weeks w prevW cell := by
  unfold moduleStep specModuleStep parseModuleCell
  by_cases hc : cell = ""
  · cases hM : strContains (modStr (weekModule weeks w)) "Mod" <;> simp [hc, hM]
  · cases hM : strContains (modStr (weekModule weeks w)) "Mod" <;>
      cases hds : cell.data.filter Char.isDigit <;>
        simp [hc, hM, hds]

/-- C1: the Row Walker assigns each week's module by the exact rule of the
claim: if the string form of the week's stored module does not contain the
marker `"Mod"` and the row's module cell is non-empty, the week's module
is set to the integer formed by the digit characters of the cell; else if
the cell is empty, the week's module is set to the resolved module of the
week that the immediately preceding row belongs to (by row position); in
particular, with module cells populated only at weeks 1, 3, 5, weeks 2
and 4 receive week 1's and week 3's resolved module respectively. -/
theorem claim_C1 :
    (∀ weeks w prevW cell,
        moduleStep weeks w prevW cell = specModuleStep weeks w prevW cell) ∧
    outModule c1Out 1 = some (some 1) ∧ outModule c1Out 2 = some (some 1) ∧
    outModule c1Out 3 = some (some 3) ∧ outModule c1Out 4 = some (some 3) ∧
    outModule c1Out 5 = some (some 5) :=
  ⟨moduleStep_eq_spec, by decide, by decide, by decide, by decide, by decide⟩

/-! ### C6: pattern extractors -/

/-- C6: the pattern extractors return an optional value and never raise:
`"HW 7"`, `"Homework7"`, `"Assignment 7"` all extract homework number 7
(patterns tried in the priority order HW, Homework, Assignment, each
case-insensitive with optional whitespace before the digits); `"Quiz  3"`
extracts quiz number 3; `"CHECKOUT2"` and `"Checkout 2"` both extract
checkout number 2; empty text or text with no pattern hit yields the
extractor's no-match result (the embeddings are total functions, so no
exception path exists). -/
theorem claim_C6 :
    extract_homework_number "HW 7" = some "7" ∧
    extract_homework_number "Homework7" = some "7" ∧
    extract_homework_number "Assignment 7" = some "7" ∧
    extract_homework_number "hw 7" = some "7" ∧
    extract_homework_number "Homework 5 and HW 7" = some "7" ∧
    (process_quiz_from_topic "Quiz  3" []).has_quiz = true ∧
    (process_quiz_from_topic "Quiz  3" []).quiz_number = "3" ∧
    extract_checkout_number "CHECKOUT2" = some "2" ∧
    extract_checkout_number "Checkout 2" = some "2" ∧
    extract_homework_number "" = none ∧
    extract_checkout_number "" = none ∧
    process_quiz_from_topic "" [] = emptyQuizInfo ∧
    process_checkout_from_topic "" = emptyCheckoutInfo ∧
    extract_homework_number "reading assignment due" = none ∧
    extract_checkout_number "lecture" = none ∧
    (process_quiz_from_topic "lecture" []).has_quiz = false ∧
    (process_checkout_from_topic "lecture").has_checkout = false := by
  refine ⟨?_, ?_, ?_, ?_, ?_, ?_, ?_, ?_, ?_, ?_, ?_, ?_, ?_, ?_, ?_, ?_, ?_⟩ <;> decide

/-! ### C3: findNextQuiz -/

theorem collectQuizInWeek_eq (w : Int) (wd : WeekRecord) :
    ∀ ld : List String,
      collectQuizInWeek w wd ld =
        ld.filterMap fun day =>
          (alGet wd.days day).bind fun dr =>
            if quizGuard dr then
              some { quiz_number := digitsToNat dr.quiz_info.quiz_number.data,
                     date := dr.date, week_number := w, day := day }
            else none := by
  intro ld
  induction ld with
  | nil => rfl
  | cons day rest ih =>
    simp only [collectQuizInWeek, List.filterMap_cons]
    cases h : alGet wd.days day with
    | none => simpa [h] using ih
    | some dr =>
      cases hg : quizGuard dr with
      | true => simp [h, hg, ih]
      | false => simp [h, hg, ih]

theorem collectQuizAll_eq (ld : List String) :
    ∀ weeks : List (Int × WeekRecord),
      collectQuizAll ld weeks =
        weeks.flatMap fun p => collectQuizInWeek p.1 p.2 ld := by
  intro weeks
  induction weeks with
  | nil => rfl
  | cons p rest ih => simp [collectQuizAll, ih]

theorem collect_quiz_dates_eq_spec (weeks : List (Int × WeekRecord)) :
    collect_quiz_dates weeks default_lecture_days =
      specCollectQuizzes weeks default_lecture_days := by
  unfold collect_quiz_dates specCollectQuizzes
  rw [collectQuizAll_eq]
  simp only [collectQuizInWeek_eq]

theorem firstLectureDate_eq (days : List (String × DayRecord)) :
    ∀ ld : List String,
      firstLectureDate days ld =
        (ld.filterMap fun day =>
          (alGet days day).bind fun dr =>
            if dr.date ≠ "" then some dr.date else none).head? := by
  intro ld
  induction ld with
  | nil => rfl
  | cons day rest ih =>
    cases h : alGet days day with
    | none => simp [firstLectureDate, List.filterMap_cons, h, ih]
    | some dr =>
      by_cases hd : dr.date = ""
      · simp [firstLectureDate, List.filterMap_cons, h, hd, ih]
      · simp [firstLectureDate, List.filterMap_cons, h, hd]

theorem firstOnOrAfter_eq_find {α : Type} (dateOf : α → String) (ref : Date) :
    ∀ l : List α,
      firstOnOrAfter dateOf ref l =
        l.find? fun q =>
          match parseDate (dateOf q) with
          | some dq => dateLE ref dq
          | none => false := by
  intro l
  induction l with
  | nil => rfl
  | cons q rest ih =>
    cases h : parseDate (dateOf q) with
    | none => simp [firstOnOrAfter, List.find?_cons, h, ih]
    | some dq =>
      by_cases hle : dateLE ref dq = true
      · simp [firstOnOrAfter, List.find?_cons, h, hle]
      · simp only [Bool.not_eq_true] at hle
        simp [firstOnOrAfter, List.find?_cons, h, hle, ih]

/-- C3: `findNextQuiz` collects quiz occurrences across all weeks
restricted to the configured lecture days, sorts ascending by extracted
quiz number (not by date), takes as reference date the earliest dated
lecture day of the current week, and returns the first collected quiz
whose own date is on-or-after the reference date; with no dated lecture
day in the current week it returns the first collected quiz; in
particular, with quizzes 1 (01/10/2025) and 2 (01/24/2025) and reference
date 01/15/2025 it returns quiz 2. -/
theorem claim_C3 :
    (∀ weeks current_week_num,
        find_next_quiz weeks default_lecture_days current_week_num =
          spec_find_next_quiz weeks current_week_num) ∧
    find_next_quiz exWeeksC3 default_lecture_days 2 =
      some { quiz_number := 2, date := "01/24/2025", week_number := 3, day := "friday" } := by
  constructor
  · intro weeks cur
    unfold find_next_quiz spec_find_next_quiz
    rw [collect_quiz_dates_eq_spec]
    have hdays : weekday_names.filter
        (fun day => default_lecture_days.contains day) = default_lecture_days := by decide
    rw [specRefDate, hdays, ← firstLectureDate_eq]
    cases h : firstLectureDate (((alGet weeks cur).map (·.days)).getD [])
        default_lecture_days with
    | none => simp [h]
    | some ds =>
      cases hp : parseDate ds with
      | none => simp [h, hp]
      | some ref => simp [h, hp, firstOnOrAfter_eq_find]
  · decide

/-! ### C2: findDueDateForHomework -/

theorem findDueInWeek_eq (wd : WeekRecord) (hw : String) :
    ∀ days : List String,
      findDueInWeek wd hw days =
        ((days.filterMap fun day =>
            (alGet wd.days day).map fun dr => (dr.due, dr.date)).find?
          (fun c => dueMatch hw c.1)).map (·.2) := by
  intro days
  induction days with
  | nil => rfl
  | cons day rest ih =>
    simp only [findDueInWeek, List.filterMap_cons]
    cases h : alGet wd.days day with
    | none => simpa [h] using ih
    | some dr =>
      cases hg : dueMatch hw dr.due with
      | true => simp [h, hg]
      | false => simp [h, hg, ih]

theorem find_due_week_step (w : Int) (wd : WeekRecord)
    (rest : List (Int × WeekRecord)) (hw : String) :
    find_homework_due_date_across_weeks ((w, wd) :: rest) hw =
      if isDigitStr (renderInt w) then
        match findDueInWeek wd hw weekday_names with
        | some date => date
        | none => find_homework_due_date_across_weeks rest hw
      else find_homework_due_date_across_weeks rest hw := by
  by_cases h : isDigitStr (renderInt w) = true
  · simp [find_homework_due_date_across_weeks, h]
  · simp only [Bool.not_eq_true] at h
    simp [find_homework_due_date_across_weeks, h]

theorem find_due_eq_spec (hw : String) :
    ∀ weeks : List (Int × WeekRecord),
      find_homework_due_date_across_weeks weeks hw = specFindDueDate weeks hw := by
  intro weeks
  induction weeks with
  | nil => rfl
  | cons p rest ih =>
    obtain ⟨w, wd⟩ := p
    rw [find_due_week_step]
    unfold specFindDueDate dueCandidates
    rw [List.flatMap_cons, List.find?_append]
    by_cases h : isDigitStr (renderInt w) = true
    · rw [if_pos h, if_pos h, findDueInWeek_eq]
      cases hf : (weekday_names.filterMap fun day =>
          (alGet wd.days day).map fun dr => (dr.due, dr.date)).find?
            (fun c => dueMatch hw c.1) with
      | none =>
        simp only [hf, Option.map_none, Option.none_or]
        exact ih
      | some c => simp [hf]
    · simp only [Bool.not_eq_true] at h
      rw [if_neg (by simp [h]), if_neg (by simp [h])]
      simpa only [List.find?_nil, Option.none_or] using ih

theorem find_due_variants_agree (hw : String) :
    ∀ weeks : List (Int × WeekRecord),
      (∀ p ∈ weeks, isDigitStr (renderInt p.1) = true) →
      find_homework_due_date weeks hw = find_homework_due_date_across_weeks weeks hw := by
  intro weeks
  induction weeks with
  | nil => intro _; rfl
  | cons p rest ih =>
    intro hall
    obtain ⟨w, wd⟩ := p
    have hw1 : isDigitStr (renderInt w) = true := hall (w, wd) (List.mem_cons_self _ _)
    have hrest : ∀ p ∈ rest, isDigitStr (renderInt p.1) = true :=
      fun q hq => hall q (List.mem_cons_of_mem _ hq)
    simp only [find_homework_due_date, find_homework_due_date_across_weeks, hw1,
      Bool.not_true, Bool.false_eq_true, if_false]
    cases hfd : findDueInWeek wd hw weekday_names with
    | some d => simp [hfd]
    | none => simp [hfd, ih hrest]

/-- C2: `findDueDateForHomework` scans the weeks of a built mapping (whose
keys, inserted in ascending order, make the dict scan an ascending
week-key scan) and within each week the days in the fixed weekday order,
returning the date of the first day whose non-empty due text contains the
homework number as a substring, and the sentinel `"TBD"` when no due text
contains it; the embedding is a total function, so no exception is
raised. -/
theorem claim_C2 :
    (∀ weeks hw, weeks.Pairwise (fun a b => a.1 < b.1) →
        find_homework_due_date_across_weeks weeks hw = specFindDueDate weeks hw) ∧
    (∀ weeks hw,
        (dueCandidates weeks).all (fun c => !dueMatch hw c.1) = true →
        find_homework_due_date_across_weeks weeks hw = "TBD") ∧
    (∀ weeks hw, (∀ p ∈ weeks, isDigitStr (renderInt p.1) = true) →
        find_homework_due_date weeks hw =
          find_homework_due_date_across_weeks weeks hw) ∧
    find_homework_due_date_across_weeks dueWeeksEx "1" = "01/08/2025" ∧
    find_homework_due_date_across_weeks dueWeeksEx "9" = "TBD" := by
  refine ⟨fun weeks hw _ => find_due_eq_spec hw weeks, ?_,
    fun weeks hw h => find_due_variants_agree hw weeks h, by decide, by decide⟩
  intro weeks hw hall
  rw [find_due_eq_spec, specFindDueDate]
  have : (dueCandidates weeks).find? (fun c => dueMatch hw c.1) = none := by
    rw [List.find?_eq_none]
    intro c hc
    have := List.all_eq_true.mp hall c hc
    simp only [Bool.not_eq_true'] at this
    simp [this]
  rw [this]

/-- C2 witness: the equivalence applied to a concrete mapping with
ascending week keys. -/
theorem claim_C2_witness :
    (dueWeeksEx.Pairwise (fun a b => a.1 < b.1)) ∧
    find_homework_due_date_across_weeks dueWeeksEx "1" = specFindDueDate dueWeeksEx "1" :=
  ⟨by decide, claim_C2.1 dueWeeksEx "1" (by decide)⟩

/-! ### C5: homework range per module -/

theorem mem_insertSortedDedup (a n : Nat) :
    ∀ l, a ∈ insertSortedDedup n l ↔ a = n ∨ a ∈ l := by
  intro l
  induction l with
  | nil => simp [insertSortedDedup]
  | cons m ms ih =>
    by_cases h1 : n < m
    · simp [insertSortedDedup, h1]
    · by_cases h2 : n = m
      · subst h2
        have he : insertSortedDedup n (n :: ms) = n :: ms := by
          simp [insertSortedDedup, h1]
        rw [he, List.mem_cons]
        tauto
      · simp only [insertSortedDedup, if_neg h1, if_neg h2, List.mem_cons, ih]
        tauto

theorem chain_insertSortedDedup (n : Nat) :
    ∀ l, List.Chain' (· < ·) l → List.Chain' (· < ·) (insertSortedDedup n l) := by
  intro l
  induction l with
  | nil => intro _; simp [insertSortedDedup]
  | cons m ms ih =>
    intro hc
    have hms : List.Chain' (· < ·) ms := hc.tail
    by_cases h1 : n < m
    · have he : insertSortedDedup n (m :: ms) = n :: m :: ms := by
        simp [insertSortedDedup, h1]
      rw [he]
      exact List.chain'_cons.mpr ⟨h1, hc⟩
    · by_cases h2 : n = m
      · simpa [insertSortedDedup, h1, h2] using hc
      · have h3 : m < n := by omega
        simp only [insertSortedDedup, if_neg h1, if_neg h2]
        refine List.chain'_cons'.mpr ⟨?_, ih hms⟩
        intro y hy
        cases ms with
        | nil => simp [insertSortedDedup] at hy; omega
        | cons k ks =>
          have hmk : m < k := (List.chain'_cons.mp hc).1
          by_cases hk1 : n < k
          · simp [insertSortedDedup, hk1] at hy; omega
          · by_cases hk2 : n = k
            · simp [insertSortedDedup, hk1, hk2] at hy; omega
            · simp [insertSortedDedup, hk1, hk2] at hy; omega

theorem mem_sortedDedup (a : Nat) : ∀ l, a ∈ sortedDedup l ↔ a ∈ l := by
  intro l
  induction l with
  | nil => simp [sortedDedup]
  | cons x xs ih =>
    show a ∈ insertSortedDedup x (sortedDedup xs) ↔ _
    rw [mem_insertSortedDedup, ih]
    simp [List.mem_cons, eq_comm]

theorem chain_sortedDedup : ∀ l, List.Chain' (· < ·) (sortedDedup l) := by
  intro l
  induction l with
  | nil => simp [sortedDedup]
  | cons x xs ih => exact chain_insertSortedDedup x _ ih

theorem mem_collectHwInWeek (n : Nat) (wd : WeekRecord) :
    ∀ days, n ∈ collectHwInWeek wd days ↔
      ∃ day ∈ days, ∃ dr, alGet wd.days day = some dr ∧
        (n ∈ hwFromText dr.assigned ∨ n ∈ hwFromText dr.due) := by
  intro days
  induction days with
  | nil => simp [collectHwInWeek]
  | cons day rest ih =>
    cases h : alGet wd.days day with
    | none =>
      simp only [collectHwInWeek, h, ih, List.mem_cons]
      constructor
      · rintro ⟨d, hd, dr, hdr, hx⟩; exact ⟨d, Or.inr hd, dr, hdr, hx⟩
      · rintro ⟨d, hd | hd, dr, hdr, hx⟩
        · subst hd; rw [h] at hdr; cases hdr
        · exact ⟨d, hd, dr, hdr, hx⟩
    | some dr =>
      simp only [collectHwInWeek, h, List.mem_append, ih, List.mem_cons]
      constructor
      · rintro ((hx | hx) | ⟨d, hd, dr2, hdr2, hx⟩)
        · exact ⟨day, Or.inl rfl, dr, h, Or.inl hx⟩
        · exact ⟨day, Or.inl rfl, dr, h, Or.inr hx⟩
        · exact ⟨d, Or.inr hd, dr2, hdr2, hx⟩
      · rintro ⟨d, hd | hd, dr2, hdr2, hx⟩
        · subst hd; rw [h] at hdr2; cases hdr2
          rcases hx with hx | hx
          · exact Or.inl (Or.inl hx)
          · exact Or.inl (Or.inr hx)
        · exact Or.inr ⟨d, hd, dr2, hdr2, hx⟩

theorem mem_collectHwAll (n m : Nat) :
    ∀ weeks : List (Int × WeekRecord), n ∈ collectHwAll m weeks ↔
      ∃ p ∈ weeks, p.2.module = some m ∧ ∃ day ∈ weekday_names, ∃ dr,
        alGet p.2.days day = some dr ∧
          (n ∈ hwFromText dr.assigned ∨ n ∈ hwFromText dr.due) := by
  intro weeks
  induction weeks with
  | nil => simp [collectHwAll]
  | cons p rest ih =>
    obtain ⟨w, wd⟩ := p
    by_cases hm : wd.module = some m
    · simp only [collectHwAll, if_pos hm, List.mem_append, mem_collectHwInWeek, ih,
        List.mem_cons]
      constructor
      · rintro (⟨d, hd, dr, hdr, hx⟩ | ⟨q, hq, hqm, hrest⟩)
        · exact ⟨(w, wd), Or.inl rfl, hm, d, hd, dr, hdr, hx⟩
        · exact ⟨q, Or.inr hq, hqm, hrest⟩
      · rintro ⟨q, hq | hq, hqm, hrest⟩
        · subst hq; exact Or.inl hrest
        · exact Or.inr ⟨q, hq, hqm, hrest⟩
    · simp only [collectHwAll, if_neg hm, ih]
      constructor
      · rintro ⟨q, hq, hqm, hrest⟩; exact ⟨q, List.mem_cons_of_mem _ hq, hqm, hrest⟩
      · rintro ⟨q, hq, hqm, hrest⟩
        rcases List.mem_cons.mp hq with hq | hq
        · subst hq; exact absurd hqm hm
        · exact ⟨q, hq, hqm, hrest⟩

theorem hwRange_eq_spec (weeks : List (Int × WeekRecord)) (m : Nat) :
    get_homework_range_for_module weeks m =
      specHwFormat (sortedDedup (collectHwAll m weeks)) m := by
  unfold get_homework_range_for_module specHwFormat
  by_cases h : (collectHwAll m weeks).isEmpty = true
  · have he : collectHwAll m weeks = [] := by simpa [List.isEmpty_iff] using h
    rw [he]; rfl
  · rw [if_neg (by simp [h])]
    cases hns : sortedDedup (collectHwAll m weeks) with
    | nil => rfl
    | cons a rest =>
      cases rest with
      | nil => rfl
      | cons b rest2 =>
        cases rest2 with
        | nil => rfl
        | cons c rest3 => simp only [hns, List.getLastD_cons]

/-- C5: `computeHomeworkRangeForModule` collects homework numbers from the
assigned and due text of every day of every week whose module equals the
given number, de-duplicates and sorts ascending, and formats the result
with two-digit zero padding: `"HW03"` for the single set 3, `"HW01 &
HW02"` for 1 and 2, `"HW01-HW03"` for 1,2,3 (first-last range for three
or more), and the fallback `"HW" ++ pad2 module` when nothing is found. -/
theorem claim_C5 :
    (∀ weeks m, get_homework_range_for_module weeks m =
        specHwFormat (sortedDedup (collectHwAll m weeks)) m) ∧
    (∀ l a, a ∈ sortedDedup l ↔ a ∈ l) ∧
    (∀ l, List.Chain' (· < ·) (sortedDedup l)) ∧
    (∀ weeks m n, n ∈ collectHwAll m weeks ↔
        ∃ p ∈ weeks, p.2.module = some m ∧ ∃ day ∈ weekday_names, ∃ dr,
          alGet p.2.days day = some dr ∧
            (n ∈ hwFromText dr.assigned ∨ n ∈ hwFromText dr.due)) ∧
    get_homework_range_for_module hwWeeksSingle 4 = "HW03" ∧
    get_homework_range_for_module hwWeeksPair 4 = "HW01 & HW02" ∧
    get_homework_range_for_module hwWeeksTriple 4 = "HW01-HW03" ∧
    get_homework_range_for_module hwWeeksTriple 5 = "HW05" :=
  ⟨hwRange_eq_spec, fun l a => mem_sortedDedup a l, chain_sortedDedup,
   fun weeks m n => mem_collectHwAll n m weeks,
   by decide, by decide, by decide, by decide⟩

/-! ### C4: lesson range per module -/

theorem mem_alPut {α β : Type} [DecidableEq α] :
    ∀ (l : List (α × β)) (k : α) (v : β), ∀ q ∈ alPut l k v, q.2 = v ∨ q ∈ l := by
  intro l
  induction l with
  | nil =>
    intro k v q hq
    simp only [alPut, List.mem_singleton] at hq
    subst hq; exact Or.inl rfl
  | cons p rest ih =>
    intro k v q hq
    by_cases h : p.1 = k
    · simp only [alPut, if_pos h, List.mem_cons] at hq
      rcases hq with hq | hq
      · subst hq; exact Or.inl rfl
      · exact Or.inr (List.mem_cons_of_mem _ hq)
    · simp only [alPut, if_neg h, List.mem_cons] at hq
      rcases hq with hq | hq
      · subst hq; exact Or.inr (List.mem_cons_self _ _)
      · rcases ih k v q hq with h1 | h1
        · exact Or.inl h1
        · exact Or.inr (List.mem_cons_of_mem _ h1)

theorem alGet_mem {α β : Type} [DecidableEq α] :
    ∀ (l : List (α × β)) (k : α) (v : β), alGet l k = some v → (k, v) ∈ l := by
  intro l
  induction l with
  | nil => intro k v h; cases h
  | cons p rest ih =>
    obtain ⟨a, b⟩ := p
    intro k v h
    by_cases hk : a = k
    · subst hk
      simp only [alGet, if_pos rfl] at h
      cases h
      exact List.mem_cons_self _ _
    · simp only [alGet, if_neg hk] at h
      exact List.mem_cons_of_mem _ (ih k v h)

theorem shaped_lrClose (rows : List Row) (index : Nat) (st : LRState)
    (h : RangeShaped st.ranges) : RangeShaped (lrClose rows index st) := by
  unfold lrClose
  split
  · split
    · intro q hq
      rcases mem_alPut _ _ _ q hq with h1 | h1
      · exact ⟨_, _, h1⟩
      · exact h q h1
    · exact h
  · exact h

theorem shaped_lrStep (rows : List Row) (index : Nat) (row : Row) (st : LRState)
    (h : RangeShaped st.ranges) : RangeShaped (lrStep rows index row st).ranges := by
  unfold lrStep
  dsimp only
  repeat' split
  all_goals try exact h
  all_goals exact shaped_lrClose rows index st h

theorem shaped_lrWalk (rows : List Row) :
    ∀ (l : List Row) (i : Nat) (st : LRState), RangeShaped st.ranges →
      RangeShaped (lrWalk rows i l st).ranges := by
  intro l
  induction l with
  | nil => intro i st h; exact h
  | cons r rest ih =>
    intro i st h
    unfold lrWalk
    by_cases hi : i = 0
    · rw [if_pos hi]; exact ih (i + 1) st h
    · rw [if_neg hi]; exact ih (i + 1) _ (shaped_lrStep rows i r st h)

theorem shaped_lrFinal (rows : List Row) (st : LRState)
    (h : RangeShaped st.ranges) : RangeShaped (lrFinal rows st) := by
  unfold lrFinal
  split
  · split
    · intro q hq
      rcases mem_alPut _ _ _ q hq with h1 | h1
      · exact ⟨_, _, h1⟩
      · exact h q h1
    · exact h
  · exact h

theorem backSearch_hit (rows : List Row) (j : Nat) (dflt : String) (hj : 1 ≤ j)
    (hv : isValidLesson (lessonAt rows j) = true) :
    backSearch rows j dflt = lessonAt rows j := by
  cases j with
  | zero => omega
  | succ k => simp [backSearch, hv]

theorem backSearch_skip (rows : List Row) (j : Nat) (dflt : String)
    (hv : isValidLesson (lessonAt rows (j + 1)) = false) :
    backSearch rows (j + 1) dflt = backSearch rows j dflt := by
  simp [backSearch, hv]

/-- C4: the lesson-range query tracks the open module and its first lesson
label, closes ranges with the nearest preceding valid (non-placeholder)
lesson label (`backSearch` walks indices `j, j-1, …, 1` and skips
placeholder cells), formats a range as a single label when start equals
end and `"start-end"` otherwise, and returns the synthesized fallback
`"{m}A-{m}D"` when no range was computed for the requested module; the
claim's worked examples are checked concretely. -/
theorem claim_C4 :
    (∀ rows m,
        alGet (lrFinal rows (lrWalk rows 0 rows ⟨[], none, none⟩)) m = none →
        get_lesson_range_for_module rows m =
          renderNat m ++ "A-" ++ renderNat m ++ "D") ∧
    (∀ rows m, get_lesson_range_for_module rows m =
          renderNat m ++ "A-" ++ renderNat m ++ "D" ∨
        ∃ s e, get_lesson_range_for_module rows m = fmtRange s e) ∧
    (∀ rows j dflt, 1 ≤ j → isValidLesson (lessonAt rows j) = true →
        backSearch rows j dflt = lessonAt rows j) ∧
    (∀ rows j dflt, isValidLesson (lessonAt rows (j + 1)) = false →
        backSearch rows (j + 1) dflt = backSearch rows j dflt) ∧
    (∀ rows dflt, backSearch rows 0 dflt = dflt) ∧
    get_lesson_range_for_module lrRowsEx 1 = "1A-1C" ∧
    get_lesson_range_for_module lrRowsEx 2 = "2A" ∧
    get_lesson_range_for_module lrRowsEx 7 = "7A-7D" ∧
    get_lesson_range_for_module lrRowsPlaceholder 1 = "1A" ∧
    get_lesson_range_for_module lrRowsPlaceholder 2 = "2A" := by
  refine ⟨?_, ?_, backSearch_hit, backSearch_skip, fun _ _ => rfl,
    by decide, by decide, by decide, by decide, by decide⟩
  · intro rows m h
    unfold get_lesson_range_for_module
    simp [h]
  · intro rows m
    unfold get_lesson_range_for_module
    cases hr : alGet (lrFinal rows (lrWalk rows 0 rows ⟨[], none, none⟩)) m with
    | none => left; simp [hr]
    | some r =>
      right
      have hs : RangeShaped (lrFinal rows (lrWalk rows 0 rows ⟨[], none, none⟩)) :=
        shaped_lrFinal rows _ (shaped_lrWalk rows rows 0 _ (by intro q hq; cases hq))
      obtain ⟨s, e, he⟩ := hs (m, r) (alGet_mem _ m r hr)
      refine ⟨s, e, ?_⟩
      simp only [hr]
      exact he

/-- C4 witness: the fallback clause applied at a module absent from the
computed ranges. -/
theorem claim_C4_witness :
    (alGet (lrFinal lrRowsEx (lrWalk lrRowsEx 0 lrRowsEx ⟨[], none, none⟩)) 7 = none ∧
     get_lesson_range_for_module lrRowsEx 7 = renderNat 7 ++ "A-" ++ renderNat 7 ++ "D") ∧
    backSearch lrRowsEx 3 "fallback" = lessonAt lrRowsEx 3 :=
  ⟨⟨by decide, claim_C4.1 lrRowsEx 7 (by decide)⟩,
   claim_C4.2.2.1 lrRowsEx 3 "fallback" (by decide) (by decide)⟩

/-! ### C7: day records and weekday keys -/

theorem updateWeekModule_days (weeks : List (Int × WeekState)) (w : Int)
    (m : Option Nat) :
    (updateWeekModule weeks w m).map (fun p => (p.1, p.2.days)) =
      weeks.map (fun p => (p.1, p.2.days)) := by
  unfold updateWeekModule
  rw [List.map_map]
  apply List.map_congr_left
  intro p _
  by_cases h : p.1 = w <;> simp [h]

theorem moduleStep_days (weeks : List (Int × WeekState)) (w : Int)
    (prevW : Option Int) (cell : String) (weeks1 : List (Int × WeekState)) :
    moduleStep weeks w prevW cell = .ok weeks1 →
    weeks1.map (fun p => (p.1, p.2.days)) = weeks.map (fun p => (p.1, p.2.days)) := by
  intro h
  unfold moduleStep at h
  split at h
  · cases hp : parseModuleCell cell with
    | ok n => rw [hp] at h; cases h; exact updateWeekModule_days _ _ _
    | error e => rw [hp] at h; cases h
  · split at h
    · cases prevW with
      | none => cases h
      | some pw => cases h; exact updateWeekModule_days _ _ _
    · cases h; rfl

/-- C7: a row contributes a `DayRecord` if and only if its date cell is a
genuine calendar timestamp.  When the module step succeeds: a row with no
timestamp yields a warning and leaves every week's days unchanged, without
raising; a row with a (valid) timestamp `d` stores a day record under the
weekday key `weekday_names[d.weekday()]`, whose `date` field is the
formatted `MM/DD/YYYY` string, and that stored string parses back to `d`
(so the key always matches the actual day-of-week of the stored date). -/
theorem claim_C7 :
    ∀ su cid st idx w prevW row weeks1,
      moduleStep st.weeks w prevW row.module_cell = .ok weeks1 →
      ((row.date = none →
          processRow su cid st idx w prevW row =
            .ok { weeks := weeks1,
                  warnings := st.warnings ++
                    ["Warning: Row " ++ renderNat idx ++
                      " has non-datetime value in date field"] } ∧
          weeks1.map (fun p => (p.1, p.2.days)) =
            st.weeks.map (fun p => (p.1, p.2.days))) ∧
       (∀ d, row.date = some d → validDate d = true →
          processRow su cid st idx w prevW row =
            .ok { weeks := updateWeekDays weeks1 w (weekdayName d)
                    (mkDayRecord row d (weekModule weeks1 w) su cid),
                  warnings := st.warnings } ∧
          (mkDayRecord row d (weekModule weeks1 w) su cid).date = formatDate d ∧
          parseDate (formatDate d) = some d ∧
          weekdayName d = weekday_names.getD (weekday d) "")) := by
  intro su cid st idx w prevW row weeks1 hm
  constructor
  · intro hd
    constructor
    · unfold processRow
      rw [hm, hd]
    · exact moduleStep_days _ _ _ _ _ hm
  · intro d hd hv
    refine ⟨?_, rfl, parseDate_formatDate d hv, rfl⟩
    unfold processRow
    rw [hm, hd]

/-- C7 witness: the timestamp branch applied to a concrete Monday row. -/
theorem claim_C7_witness :
    processRow [] none { weeks := [(1, emptyWeekState)], warnings := [] } 1 1 none c7Row =
      .ok { weeks := updateWeekDays [(1, { module := some 1, days := [] })] 1
              (weekdayName ⟨2025, 1, 6⟩)
              (mkDayRecord c7Row ⟨2025, 1, 6⟩
                (weekModule [(1, { module := some 1, days := [] })] 1) [] none),
            warnings := [] } ∧
    parseDate (formatDate ⟨2025, 1, 6⟩) = some ⟨2025, 1, 6⟩ ∧
    weekdayName ⟨2025, 1, 6⟩ = "monday" := by
  have h := (claim_C7 [] none { weeks := [(1, emptyWeekState)], warnings := [] } 1 1 none
      c7Row [(1, { module := some 1, days := [] })] (by decide)).2 ⟨2025, 1, 6⟩ rfl (by decide)
  exact ⟨h.1, h.2.2.1, by decide⟩

/-! ### C10: exhausted candidate scans return None -/

theorem dateLT_iff (a b : Date) : dateLT a b = true ↔ dateLE b a = false := by
  unfold dateLT dateLE
  simp only [Bool.or_eq_true, Bool.and_eq_true, decide_eq_true_eq,
    Bool.or_eq_false_iff, Bool.and_eq_false_iff, decide_eq_false_iff_not]
  omega

theorem firstOnOrAfter_none {α : Type} (dateOf : α → String) (ref : Date) :
    ∀ l : List α,
      (l.all fun q =>
        match parseDate (dateOf q) with
        | some dq => dateLT dq ref
        | none => true) = true →
      firstOnOrAfter dateOf ref l = none := by
  intro l
  induction l with
  | nil => intro _; rfl
  | cons q rest ih =>
    intro hall
    rw [List.all_cons, Bool.and_eq_true] at hall
    obtain ⟨hq, hrest⟩ := hall
    unfold firstOnOrAfter
    cases hp : parseDate (dateOf q) with
    | none => exact ih hrest
    | some dq =>
      simp only [hp] at hq
      have h2 : dateLE ref dq = false := (dateLT_iff dq ref).mp hq
      simp [h2, ih hrest]

/-- C10: when the current week's reference date exists and parses, and
every collected quiz (resp. checkout) whose date parses is strictly before
it, `findNextQuiz` (resp. `findNextCheckout`) returns `None`; candidates
whose dates fail to parse are skipped by the scan. -/
theorem claim_C10 :
    (∀ weeks cur ds ref,
        firstLectureDate (((alGet weeks cur).map (·.days)).getD [])
            default_lecture_days = some ds →
        parseDate ds = some ref →
        ((collect_quiz_dates weeks default_lecture_days).all fun q =>
            match parseDate q.date with
            | some dq => dateLT dq ref
            | none => true) = true →
        find_next_quiz weeks default_lecture_days cur = none) ∧
    (∀ weeks cur ds ref,
        firstLectureDate (((alGet weeks cur).map (·.days)).getD [])
            default_lecture_days = some ds →
        parseDate ds = some ref →
        ((collect_checkout_assignments weeks).all fun c =>
            match parseDate c.date with
            | some dc => dateLT dc ref
            | none => true) = true →
        find_next_checkout weeks default_lecture_days cur = none) ∧
    (∀ a b, dateLT a b = true ↔ dateLE b a = false) ∧
    find_next_quiz oldWeeksEx default_lecture_days 2 = none := by
  refine ⟨?_, ?_, dateLT_iff, by decide⟩
  · intro weeks cur ds ref h1 h2 h3
    unfold find_next_quiz
    by_cases he : (collect_quiz_dates weeks default_lecture_days).isEmpty = true
    · simp [he]
    · simp only [Bool.not_eq_true] at he
      simp only [he, Bool.false_eq_true, if_false, h1, h2]
      exact firstOnOrAfter_none _ _ _ h3
  · intro weeks cur ds ref h1 h2 h3
    unfold find_next_checkout
    by_cases he : (collect_checkout_assignments weeks).isEmpty = true
    · simp [he]
    · simp only [Bool.not_eq_true] at he
      simp only [he, Bool.false_eq_true, if_false, h1, h2]
      exact firstOnOrAfter_none _ _ _ h3

/-- C10 witness: the quiz clause applied to a mapping whose only quiz
(01/03/2025) is strictly before the reference date 01/15/2025. -/
theorem claim_C10_witness :
    firstLectureDate (((alGet oldWeeksEx (2 : Int)).map (·.days)).getD [])
        default_lecture_days = some "01/15/2025" ∧
    find_next_quiz oldWeeksEx default_lecture_days 2 = none :=
  ⟨by decide,
   claim_C10.1 oldWeeksEx 2 "01/15/2025" ⟨2025, 1, 15⟩ (by decide) (by decide) (by decide)⟩

/-! ### C8 and C9: result keys and the objectives join -/

theorem mem_dedupFirstAux :
    ∀ (l seen : List Int) (w : Int), w ∈ l →
      w ∈ dedupFirstAux l seen ∨ seen.contains w = true := by
  intro l
  induction l with
  | nil => intro seen w hw; cases hw
  | cons x rest ih =>
    intro seen w hw
    by_cases hs : seen.contains x = true
    · rcases List.mem_cons.mp hw with hw | hw
      · subst hw
        simp only [dedupFirstAux, if_pos hs]
        exact Or.inr hs
      · simp only [dedupFirstAux, if_pos hs]
        exact ih seen w hw
    · simp only [dedupFirstAux, if_neg hs]
      rcases List.mem_cons.mp hw with hw | hw
      · subst hw; exact Or.inl (List.mem_cons_self _ _)
      · rcases ih (x :: seen) w hw with h1 | h1
        · exact Or.inl (List.mem_cons_of_mem _ h1)
        · rw [List.contains_cons] at h1
          rcases Bool.or_eq_true_iff.mp h1 with h2 | h2
          · have : w = x := by simpa using h2
            subst this; exact Or.inl (List.mem_cons_self _ _)
          · exact Or.inr h2

theorem mem_dedupFirst (l : List Int) (w : Int) (h : w ∈ l) : w ∈ dedupFirst l := by
  rcases mem_dedupFirstAux l [] w h with h1 | h1
  · exact h1
  · simp [List.contains] at h1

theorem checkInit_mem (overview image_urls : List (Int × String)) :
    ∀ (keys : List Int) (inits : List (Int × String × String)),
      checkInit keys overview image_urls = .ok inits →
      ∀ w ∈ keys, ∃ ov im, (w, ov, im) ∈ inits := by
  intro keys
  induction keys with
  | nil => intro inits _ w hw; cases hw
  | cons k rest ih =>
    intro inits h w hw
    unfold checkInit at h
    cases ho : alGet overview k with
    | none => simp only [ho] at h; cases h
    | some ov =>
      cases hi : alGet image_urls k with
      | none => simp only [ho, hi] at h; cases h
      | some im =>
        simp only [ho, hi] at h
        cases hr : checkInit rest overview image_urls with
        | error e => rw [hr] at h; simp only [Except.map] at h; cases h
        | ok tail =>
          rw [hr] at h
          simp only [Except.map] at h
          cases h
          rcases List.mem_cons.mp hw with hw | hw
          · subst hw; exact ⟨ov, im, List.mem_cons_self _ _⟩
          · obtain ⟨ov2, im2, hm⟩ := ih tail hr w hw
            exact ⟨ov2, im2, List.mem_cons_of_mem _ hm⟩

theorem joinObjectives_ok (objectives : List (Nat × Objectives))
    (weeks : List (Int × WeekState)) :
    ∀ (inits : List (Int × String × String)) (entries : Output),
      joinObjectives objectives weeks inits = .ok entries →
      (∀ t ∈ inits, ∃ r : WeekRecord, (Sum.inl t.1, Entry.week r) ∈ entries) ∧
      (∀ p ∈ entries, ∃ w : Int, p.1 = Sum.inl w) ∧
      (∀ p ∈ entries, ∀ r : WeekRecord, p.2 = Entry.week r →
        ∃ m ob, r.module = some m ∧ alGet objectives m = some ob ∧
          r.learning_objectives = ob.learning_objectives ∧
          r.learning_objectives_topic = ob.learning_objectives_topic) := by
  intro inits
  induction inits with
  | nil =>
    intro entries h
    cases h
    refine ⟨fun t ht => absurd ht (List.not_mem_nil t),
      fun p hp => absurd hp (List.not_mem_nil p),
      fun p hp => absurd hp (List.not_mem_nil p)⟩
  | cons t rest ih =>
    obtain ⟨w, ov, im⟩ := t
    intro entries h
    unfold joinObjectives at h
    cases hm : weekModule weeks w with
    | none => simp only [hm] at h; cases h
    | some m =>
      cases hob : alGet objectives m with
      | none => simp only [hm, hob] at h; cases h
      | some ob =>
        simp only [hm, hob] at h
        cases hr : joinObjectives objectives weeks rest with
        | error e => rw [hr] at h; simp only [Except.map] at h; cases h
        | ok tail =>
          rw [hr] at h
          simp only [Except.map] at h
          cases h
          obtain ⟨ih1, ih2, ih3⟩ := ih tail hr
          refine ⟨?_, ?_, ?_⟩
          · intro t ht
            rcases List.mem_cons.mp ht with ht | ht
            · subst ht
              exact ⟨_, List.mem_cons_self _ _⟩
            · obtain ⟨r, hrr⟩ := ih1 t ht
              exact ⟨r, List.mem_cons_of_mem _ hrr⟩
          · intro p hp
            rcases List.mem_cons.mp hp with hp | hp
            · subst hp; exact ⟨w, rfl⟩
            · exact ih2 p hp
          · intro p hp r hr2
            rcases List.mem_cons.mp hp with hp | hp
            · subst hp
              cases hr2
              exact ⟨m, ob, rfl, hob, rfl, rfl⟩
            · exact ih3 p hp r hr2

theorem joinObjectives_err (objectives : List (Nat × Objectives))
    (weeks : List (Int × WeekState)) :
    ∀ inits : List (Int × String × String),
      (∃ t ∈ inits, objectivesMiss objectives weeks t.1 = true) →
      ∃ msg, joinObjectives objectives weeks inits = .error (.keyError msg) := by
  intro inits
  induction inits with
  | nil => rintro ⟨t, ht, _⟩; cases ht
  | cons t rest ih =>
    obtain ⟨w, ov, im⟩ := t
    rintro ⟨t2, ht2, hmiss⟩
    cases hm : weekModule weeks w with
    | none =>
      exact ⟨"objective_data, module never assigned", by simp [joinObjectives, hm]⟩
    | some m =>
      cases hob : alGet objectives m with
      | none =>
        exact ⟨"objective_data, module " ++ renderNat m, by simp [joinObjectives, hm, hob]⟩
      | some ob =>
        rcases List.mem_cons.mp ht2 with ht2 | ht2
        · subst ht2
          exfalso
          unfold objectivesMiss at hmiss
          simp only [hm, hob] at hmiss
          cases hmiss
        · obtain ⟨msg, hmsg⟩ := ih ⟨t2, ht2, hmiss⟩
          refine ⟨msg, ?_⟩
          simp only [joinObjectives, hm, hob, hmsg, Except.map]

/-- C8: a successful build's mapping contains a week entry for every week
number in the forward-filled week column, and its string-keyed entries are
exactly the two auxiliary pass-through entries, icon-URL metadata and
lecture-info metadata, holding exactly the values passed in. -/
theorem claim_C8 :
    ∀ rows overview objectives image_urls icon_urls lecture_info su cid out wcol,
      populate_weeks rows overview objectives image_urls icon_urls lecture_info
          su cid = .ok out →
      ffillWeeks ((rows.drop 1).map (·.week)) none = .ok wcol →
      (∀ w ∈ wcol, ∃ r : WeekRecord, (Sum.inl w, Entry.week r) ∈ out) ∧
      out.filter (fun p => p.1.isRight) =
        [(Sum.inr "icon_urls", Entry.icons icon_urls),
         (Sum.inr "lecture_info", Entry.linfo lecture_info)] := by
  intro rows overview objectives image_urls icon_urls lecture_info su cid out wcol
    hok hff
  unfold populate_weeks at hok
  simp only [hff] at hok
  cases hci : checkInit (dedupFirst wcol) overview image_urls with
  | error e => simp only [hci] at hok; cases hok
  | ok inits =>
    simp only [hci] at hok
    cases hwk : walkRows su cid 1 none ((rows.drop 1).zip wcol)
        { weeks := (dedupFirst wcol).map (fun w => (w, emptyWeekState)),
          warnings := [] } with
    | error e => simp only [hwk] at hok; cases hok
    | ok st =>
      simp only [hwk] at hok
      cases hjo : joinObjectives objectives st.weeks inits with
      | error e => simp only [hjo] at hok; cases hok
      | ok entries =>
        simp only [hjo] at hok
        cases hok
        constructor
        · intro w hw
          obtain ⟨ov, im, hmem⟩ :=
            checkInit_mem overview image_urls (dedupFirst wcol) inits hci w
              (mem_dedupFirst wcol w hw)
          obtain ⟨r, hr⟩ := (joinObjectives_ok objectives st.weeks inits entries hjo).1
            (w, ov, im) hmem
          exact ⟨r, List.mem_append_left _ hr⟩
        · rw [List.filter_append]
          have h1 : entries.filter (fun p => p.1.isRight) = [] := by
            rw [List.filter_eq_nil_iff]
            intro p hp
            obtain ⟨w, hw⟩ :=
              (joinObjectives_ok objectives st.weeks inits entries hjo).2.1 p hp
            simp [hw]
          rw [h1]
          rfl

/-- C8 witness: the key guarantee applied to a concrete successful
build. -/
theorem claim_C8_witness :
    (∀ w ∈ wcol8, ∃ r : WeekRecord, (Sum.inl w, Entry.week r) ∈ c8Out) ∧
    c8Out.filter (fun p => p.1.isRight) =
      [(Sum.inr "icon_urls", Entry.icons icons8),
       (Sum.inr "lecture_info", Entry.linfo linfo8)] :=
  claim_C8 c1Rows ovsEx objsEx imsEx icons8 linfo8 [] none c8Out wcol8
    (by decide) (by decide)

/-- C9: a build that returns a mapping has resolved every week's module
against the objectives metadata, with the objectives fields taken verbatim
from the matching entry (nothing is defaulted); when some week's resolved
module has no objectives entry (or is still unset), the whole build
returns a `KeyError` instead of a mapping; in particular the concrete
build whose objectives metadata lacks module 3 aborts with that lookup
error. -/
theorem claim_C9 :
    (∀ rows overview objectives image_urls icon_urls lecture_info su cid out,
        populate_weeks rows overview objectives image_urls icon_urls lecture_info
            su cid = .ok out →
        ∀ p ∈ out, ∀ r : WeekRecord, p.2 = Entry.week r →
          ∃ m ob, r.module = some m ∧ alGet objectives m = some ob ∧
            r.learning_objectives = ob.learning_objectives ∧
            r.learning_objectives_topic = ob.learning_objectives_topic) ∧
    (∀ rows overview objectives image_urls icon_urls lecture_info su cid wcol
        inits st,
        ffillWeeks ((rows.drop 1).map (·.week)) none = .ok wcol →
        checkInit (dedupFirst wcol) overview image_urls = .ok inits →
        walkRows su cid 1 none ((rows.drop 1).zip wcol)
          { weeks := (dedupFirst wcol).map (fun w => (w, emptyWeekState)),
            warnings := [] } = .ok st →
        (∃ t ∈ inits, objectivesMiss objectives st.weeks t.1 = true) →
        ∃ msg, populate_weeks rows overview objectives image_urls icon_urls
          lecture_info su cid = .error (.keyError msg)) ∧
    populate_weeks c1Rows ovsEx objsMissing imsEx [] [] [] none =
      .error (.keyError "objective_data, module 3") := by
  refine ⟨?_, ?_, by decide⟩
  · intro rows overview objectives image_urls icon_urls lecture_info su cid out
      hok p hp r hr
    unfold populate_weeks at hok
    cases hff : ffillWeeks ((rows.drop 1).map (·.week)) none with
    | error e => simp only [hff] at hok; cases hok
    | ok wcol =>
      simp only [hff] at hok
      cases hci : checkInit (dedupFirst wcol) overview image_urls with
      | error e => simp only [hci] at hok; cases hok
      | ok inits =>
        simp only [hci] at hok
        cases hwk : walkRows su cid 1 none ((rows.drop 1).zip wcol)
            { weeks := (dedupFirst wcol).map (fun w => (w, emptyWeekState)),
              warnings := [] } with
        | error e => simp only [hwk] at hok; cases hok
        | ok st =>
          simp only [hwk] at hok
          cases hjo : joinObjectives objectives st.weeks inits with
          | error e => simp only [hjo] at hok; cases hok
          | ok entries =>
            simp only [hjo] at hok
            cases hok
            rcases List.mem_append.mp hp with hp | hp
            · exact (joinObjectives_ok objectives st.weeks inits entries hjo).2.2
                p hp r hr
            · rcases List.mem_cons.mp hp with hp | hp
              · subst hp; cases hr
              · rcases List.mem_cons.mp hp with hp | hp
                · subst hp; cases hr
                · cases hp
  · intro rows overview objectives image_urls icon_urls lecture_info su cid wcol
      inits st hff hci hwk hmiss
    obtain ⟨msg, hmsg⟩ := joinObjectives_err objectives st.weeks inits hmiss
    refine ⟨msg, ?_⟩
    unfold populate_weeks
    simp only [hff, hci, hwk, hmsg]

/-- C9 witness: the error clause applied to the concrete build whose
objectives metadata lacks module 3. -/
theorem claim_C9_witness :
    ∃ msg, populate_weeks c1Rows ovsEx objsMissing imsEx [] [] [] none =
      .error (.keyError msg) :=
  claim_C9.2.1 c1Rows ovsEx objsMissing imsEx [] [] [] none wcol8 c9Inits c9St
    (by decide) (by decide) (by decide) (by decide)

end CanvasCrafter
